import Mathlib

/-!
# Verification of the airtable-interfaces repository

Shallow embedding of the two computational cores of the repository:

* the sales-series reconstructor of `src/graphique_dual_axes/frontend/index.js`
  (the `fetchSales` effect, lines 912-1083, and the derived statistics,
  lines 1086-1105), and
* the routing/scheduling grid builder of `src/unnamed/part_000`
  (`RoutageApp`, Variant A) together with the shared week comparator that also
  appears in `src/routage/routage/frontend/index.js`.

Conventions of the embedding:

* Calendar days are `Nat` values.  The JS code carries days as ISO `yyyy-mm-dd`
  strings whose lexicographic order coincides with chronological order, and
  steps them with `d.setDate(d.getDate() + 1)`; a day is therefore an element
  of a linear order with a successor, which `Nat` models exactly.
* The numeric components `sold`, `free`, `total` are `Int`.  The JS code holds
  them as numbers and only uses `Math.max`, `+`, `-` and comparisons on them,
  which the embedding mirrors componentwise.  (`row.sold || 0` /
  `parseFloat(row.total) || 0` null-handling happens before the rows enter the
  algorithms, so rows are modelled as already-numeric.)
* JS objects used as dictionaries (`byDay`, `byRecord`, `lastKnown`, the week
  `Map`s) are modelled as functions into `Option`, built by `foldl` in exactly
  the order the JS `forEach`/`for` loops run.
-/

/-! ## Sales data model (graphique_dual_axes) -/

/-- The three cumulative components carried by a snapshot:
`{sold, free, total}` as built at lines 1033-1037 / 987-991. -/
structure SalesVal where
  sold : Int
  free : Int
  total : Int
deriving DecidableEq, Repr

/-- The JS initial accumulator `{sold: 0, free: 0, total: 0}` (line 1044 / 1009). -/
def SalesVal.zero : SalesVal := ⟨0, 0, 0⟩

/-- Componentwise `Math.max` as used at lines 1049-1051 / 1010-1012. -/
def SalesVal.max2 (a b : SalesVal) : SalesVal :=
  ⟨max a.sold b.sold, max a.free b.free, max a.total b.total⟩

/-- Componentwise addition, the `sumSold += ...` accumulation of lines 1015-1017. -/
def SalesVal.add (a b : SalesVal) : SalesVal :=
  ⟨a.sold + b.sold, a.free + b.free, a.total + b.total⟩

/-- Componentwise order on the three cumulative components. -/
def SalesVal.le (a b : SalesVal) : Prop :=
  a.sold ≤ b.sold ∧ a.free ≤ b.free ∧ a.total ≤ b.total

/-- One row of the remote `sales_report` result set:
`{record_id, date, sold, free, total}` (the `select` at line 950). -/
structure SalesRow where
  record_id : String
  date : Nat
  sold : Int
  free : Int
  total : Int
deriving DecidableEq, Repr

/-- The value triple of a row, as stored into `byDay` / `byRecord`. -/
def SalesRow.val (r : SalesRow) : SalesVal := ⟨r.sold, r.free, r.total⟩

/-- One point of the reconstructed series: `{date, ventes, gratuits, total_dollars}`
(lines 1053-1059 / 1020-1026; `dateLabel` is presentation only and omitted). -/
structure SeriesPoint where
  date : Nat
  ventes : Int
  gratuits : Int
  total_dollars : Int
deriving DecidableEq, Repr

/-! ## Single-performance reconstruction (lines 1029-1063) -/

/-- The `byDay` index of lines 1030-1038: `data.forEach((row) => { byDay[day] = ... })`.
Later rows overwrite earlier rows with the same day (JS property assignment). -/
def byDayIndex (data : List SalesRow) : Nat → Option SalesVal :=
  data.foldl (fun byDay row => fun d => if d = row.date then some row.val else byDay d)
    (fun _ => none)

/-- The value `days[0]` of line 1042: the earliest observed date
(`Object.keys(byDay).sort()` puts the minimum first). -/
def startDay (data : List SalesRow) : Option Nat := (data.map (·.date)).min?

/-- The value `days[days.length - 1]` of line 1043: the latest observed date. -/
def endDay (data : List SalesRow) : Option Nat := (data.map (·.date)).max?

/-- The per-day update of `last` (lines 1048-1052): element-wise `Math.max`
against the day's row when present, carry-forward otherwise. -/
def applyRow (last : SalesVal) : Option SalesVal → SalesVal
  | some v => SalesVal.max2 last v
  | none => last

/-- The fill loop of lines 1046-1060: starting from `last`, emit one point per
day for `n` consecutive days beginning at `d`. -/
def carrySeries (byDay : Nat → Option SalesVal) : SalesVal → Nat → Nat → List SeriesPoint
  | _last, _d, 0 => []
  | last, d, n + 1 =>
    let lastUpd := applyRow last (byDay d)
    ⟨d, lastUpd.sold, lastUpd.free, lastUpd.total⟩ :: carrySeries byDay lastUpd (d + 1) n

/-- Single-performance mode of `fetchSales` (lines 1029-1063): index the rows by
day, then fill every calendar day from the earliest to the latest observed date.
When there are no rows, `formatted = []` (line 1062). -/
def reconstructSingle (data : List SalesRow) : List SeriesPoint :=
  match startDay data, endDay data with
  | some s, some e => carrySeries (byDayIndex data) SalesVal.zero s (e - s + 1)
  | _, _ => []

/-- The carry-forward state after processing days `d, d+1, ..., d+k-1` starting
from `init`: a closed form for the mutable `last` of the fill loop. -/
def carryState (byDay : Nat → Option SalesVal) (init : SalesVal) (d : Nat) : Nat → SalesVal
  | 0 => init
  | k + 1 => applyRow (carryState byDay init d k) (byDay (d + k))

/-- The spec's carry-forward example: snapshot rows for one performance on
days 1 and 3 with cumulative sold 10 and 8. -/
def c1ExampleRows : List SalesRow :=
  [⟨"perf1", 1, 10, 0, 0⟩, ⟨"perf1", 3, 8, 0, 0⟩]

/-! ## Aggregate-mode reconstruction (lines 978-1027) -/

/-- The `byRecord` index of lines 980-992:
`byRecord[rid][day] = ...` — later rows overwrite earlier rows with the same
`(record_id, day)` pair. -/
def byRecordIndex (data : List SalesRow) : String → Nat → Option SalesVal :=
  data.foldl
    (fun byRecord row => fun rid d =>
      if rid = row.record_id ∧ d = row.date then some row.val else byRecord rid d)
    (fun _ _ => none)

/-- The list `Object.keys(byRecord)` (line 995): the distinct record ids in first-appearance
order. -/
def recordIds (data : List SalesRow) : List String :=
  data.foldl (fun acc row => if row.record_id ∈ acc then acc else acc ++ [row.record_id]) []

/-- The per-record update of `lastKnown[rid]` for one day (lines 1007-1013):
when the record has a row that day, initialise to zero if absent and take the
element-wise maximum; otherwise leave the entry (possibly still absent) alone. -/
def ridUpdate (byRecord : String → Nat → Option SalesVal) (rid : String)
    (lk : Option SalesVal) (day : Nat) : Option SalesVal :=
  match byRecord rid day with
  | some entry => some (SalesVal.max2 (lk.getD SalesVal.zero) entry)
  | none => lk

/-- The guarded accumulation of lines 1014-1018: an absent `lastKnown` entry
contributes nothing. -/
def addOpt (sums : SalesVal) : Option SalesVal → SalesVal
  | some v => SalesVal.add sums v
  | none => sums

/-- One day of the aggregate loop (lines 1005-1019): update each record's
`lastKnown` entry and accumulate the day's sums, in record order. -/
def aggDay (byRecord : String → Nat → Option SalesVal) (rids : List String)
    (lastKnown : String → Option SalesVal) (day : Nat) :
    (String → Option SalesVal) × SalesVal :=
  rids.foldl
    (fun acc rid =>
      let lkRid := ridUpdate byRecord rid (acc.1 rid) day
      (fun r => if r = rid then lkRid else acc.1 r, addOpt acc.2 lkRid))
    (lastKnown, SalesVal.zero)

/-- The aggregate fill loop (lines 1003-1027): one summed point per day for `n`
consecutive days starting at `d`, threading `lastKnown` across days. -/
def aggSeries (byRecord : String → Nat → Option SalesVal) (rids : List String) :
    (String → Option SalesVal) → Nat → Nat → List SeriesPoint
  | _lk, _d, 0 => []
  | lk, d, n + 1 =>
    let stepDay := aggDay byRecord rids lk d
    ⟨d, stepDay.2.sold, stepDay.2.free, stepDay.2.total⟩ ::
      aggSeries byRecord rids stepDay.1 (d + 1) n

/-- Aggregate mode of `fetchSales` (lines 978-1027): group rows by record and
day, then fill the union day span with per-day sums of the per-record
carried-forward values. -/
def reconstructAgg (data : List SalesRow) : List SeriesPoint :=
  match startDay data, endDay data with
  | some s, some e =>
    aggSeries (byRecordIndex data) (recordIds data) (fun _ => none) s (e - s + 1)
  | _, _ => []

/-- The carry-forward state of one record after processing days
`d, ..., d + k - 1` independently of all other records. -/
def ridStateFrom (byRecord : String → Nat → Option SalesVal) (rid : String)
    (init : Option SalesVal) (d : Nat) : Nat → Option SalesVal
  | 0 => init
  | k + 1 => ridUpdate byRecord rid (ridStateFrom byRecord rid init d k) (d + k)

/-- Sum of the present entries of `f` over `rids`, in order. -/
def sumOver (rids : List String) (f : String → Option SalesVal) : SalesVal :=
  rids.foldl (fun sums rid => addOpt sums (f rid)) SalesVal.zero

/-- The spec's aggregate example: per-performance series [5,5,7] and [0,3,3]
over days 1-3 (performance "b" has its first row on day 2). -/
def c3ExampleRows : List SalesRow :=
  [⟨"a", 1, 5, 0, 0⟩, ⟨"a", 2, 5, 0, 0⟩, ⟨"a", 3, 7, 0, 0⟩,
   ⟨"b", 2, 3, 0, 0⟩, ⟨"b", 3, 3, 0, 0⟩]

/-! ## Same-day duplicate rows (C10) -/

/-! ## Period statistics (lines 1086-1105) -/

/-- The date-range filter of `filteredSalesData` (lines 1086-1092): an inclusive
from-filter, then an inclusive to-filter, each applied only when set. -/
def filteredSalesData (salesData : List SeriesPoint) (dateFrom dateTo : Option Nat) :
    List SeriesPoint :=
  if salesData.length = 0 then salesData
  else
    let data1 :=
      match dateFrom with
      | some f => salesData.filter (fun d => decide (f ≤ d.date))
      | none => salesData
    match dateTo with
    | some t => data1.filter (fun d => decide (d.date ≤ t))
    | none => data1

/-- The two derived period statistics (lines 1101-1104). -/
structure PeriodStats where
  ventesInPeriod : Int
  revenusInPeriod : Int
deriving DecidableEq, Repr

/-- The zero baseline `{ventes: 0, gratuits: 0, total_dollars: 0}` of line 1100
(its date component is never read). -/
def zeroPoint : SeriesPoint := ⟨0, 0, 0, 0⟩

/-- The memo `periodStats` (lines 1095-1105): `none` when the filtered range is empty;
otherwise the delta between the last in-range point and the point just before
`baseIndex = salesData.indexOf(first)` (zero baseline at the start).  JS
`indexOf` compares by object identity; since the series' points carry distinct
dates it coincides with the value-based `List.indexOf` used here (proved in
`indexOf_head_filter` below without any distinctness assumption, because a
point equal to `first` satisfies the same range predicate). -/
def periodStats (salesData : List SeriesPoint) (dateFrom dateTo : Option Nat) :
    Option PeriodStats :=
  let filtered := filteredSalesData salesData dateFrom dateTo
  match filtered.head?, filtered.getLast? with
  | some first, some lastP =>
    let baseIndex := salesData.indexOf first
    let base := if 0 < baseIndex then (salesData.get? (baseIndex - 1)).getD zeroPoint
      else zeroPoint
    some ⟨lastP.ventes - base.ventes, lastP.total_dollars - base.total_dollars⟩
  | _, _ => none

/-- The combined inclusive range predicate of the spec (§4.2 step 6). -/
def inPeriod (dateFrom dateTo : Option Nat) (p : SeriesPoint) : Bool :=
  (match dateFrom with
   | some f => decide (f ≤ p.date)
   | none => true) &&
  (match dateTo with
   | some t => decide (p.date ≤ t)
   | none => true)

/-- Spec-side formulation of the period statistic (§4.2 step 6): the delta
between the cumulative value at the last in-range point and the cumulative
value of the point immediately preceding the first in-range point (position
`findIdx` of the range predicate), with a zero baseline when the first
in-range point is the first point of the series. -/
def periodDeltaSpec (salesData : List SeriesPoint) (dateFrom dateTo : Option Nat) :
    Option PeriodStats :=
  let k := salesData.findIdx (inPeriod dateFrom dateTo)
  match (salesData.filter (inPeriod dateFrom dateTo)).getLast? with
  | some lastP =>
    let base := if k = 0 then zeroPoint else (salesData.get? (k - 1)).getD zeroPoint
    some ⟨lastP.ventes - base.ventes, lastP.total_dollars - base.total_dollars⟩
  | none => none

/-! ## Pagination (lines 952-974) -/

/-- The page size of line 955: `const pageSize = 1000;`. -/
def pageSize : Nat := 1000

/-- One `limit`/`offset` page of the remote result set (the Supabase REST
semantics of the request at line 957): the rows at positions
`offset, ..., offset + pageSize - 1`. -/
def fetchPage {α : Type} (remote : List α) (offset : Nat) : List α :=
  (remote.drop offset).take pageSize

/-- The `while (true)` pagination loop of lines 956-974, with an explicit fuel
bound on the number of page requests: `none` means the loop did not finish
within `fuel` requests; `some rows` means it terminated (a short page was
returned) having concatenated the fetched pages in order.  The `didCancel`
early-return (line 973) only stops the loop sooner and never commits state; it
is treated in the cancellation model below. -/
def fetchLoop {α : Type} (remote : List α) : Nat → Nat → Option (List α)
  | _offset, 0 => none
  | offset, fuel + 1 =>
    let page := fetchPage remote offset
    if page.length < pageSize then some page
    else
      match fetchLoop remote (offset + pageSize) fuel with
      | some rest => some (page ++ rest)
      | none => none

/-! ## Cancellation (lines 912-1083)

The `useEffect` at lines 912-1083 issues one fetch request per dependency
change.  Each request closes over its own `didCancel` flag (line 927); the
effect cleanup (lines 1080-1082) sets the previous request's flag before the
next request starts.  Every state-committing step — the cache-hit display
(lines 930-936), the cache write together with `setSalesData` (lines
1066-1068), and the error display (lines 1071-1074) — runs inside an
`if (!didCancel)` guard, and JS run-to-completion makes the guard and the
writes it protects a single atomic step.  The model below indexes requests by
issue order: request `n`'s flag is set exactly when a later request has been
issued, i.e. when `n + 1 < issued`; page fetches touch no shared state
(`data` is local to the request). -/

/-- Shared state of the component: how many requests have been issued, the
displayed series (`salesData`), and the cache (`cacheRef.current`). -/
structure FetchState where
  issued : Nat
  displayed : Option (List SeriesPoint)
  cache : String → Option (List SeriesPoint)

/-- Scheduler events: a new request is issued (running the previous effect's
cleanup first), a request fetches one page, or a request reaches its
state-committing step. -/
inductive FetchEvent where
  | issue : FetchEvent
  | page : Nat → FetchEvent
  | commit : Nat → FetchEvent
deriving DecidableEq, Repr

/-- One scheduler step.  `commit n` writes the cache and the displayed series
only when request `n`'s `didCancel` flag is still false, i.e. when `n` is the
latest issued request (`n + 1 = issued`). -/
def stepFetch (keyOf : Nat → String) (dataOf : Nat → List SeriesPoint)
    (s : FetchState) : FetchEvent → FetchState
  | .issue => { s with issued := s.issued + 1 }
  | .page _ => s
  | .commit n =>
    if n + 1 = s.issued then
      { s with displayed := some (dataOf n),
               cache := fun k => if k = keyOf n then some (dataOf n) else s.cache k }
    else s

/-- Run a whole schedule from the initial state (nothing issued, nothing
displayed, empty cache). -/
def runFetch (keyOf : Nat → String) (dataOf : Nat → List SeriesPoint)
    (events : List FetchEvent) : FetchState :=
  events.foldl (stepFetch keyOf dataOf) ⟨0, none, fun _ => none⟩

/-- Number of `issue` events in a schedule; request `n` exists once this
reaches `n + 1`. -/
def issueCount (events : List FetchEvent) : Nat :=
  (events.filter (fun e => e == FetchEvent.issue)).length

/-! ## Routing grid data model (src/unnamed/part_000, Variant A)

Record cell values are modelled as the SDK's `getCellValue` results: a linked
record cell is `none` (empty) or `some` list of linked record ids (the JS
`{id, name}` objects, of which only `id` is read for weeks/blocs/sites/canals);
the multi-select `jours` cell is `none` or `some` list of option names; a
week's parsed start date (`parseAirtableDate`) is `none` or a `Nat` whose order
matches `Date.getTime()` order. -/

/-- An event record together with the cell values the grid reads
(lines 250-281). -/
structure EventRec where
  id : String
  name : String
  weekLinks : Option (List String)
  blocLinks : Option (List String)
  jours : Option (List String)
  siteLinks : Option (List String)
  canalLinks : Option (List String)
deriving DecidableEq, Repr

/-- A week record with its parsed start and end dates (lines 230-239). -/
structure WeekRec where
  id : String
  name : String
  dateDebut : Option Nat
  dateFin : Option Nat
deriving DecidableEq, Repr

/-- A bloc record (lines 242-245). -/
structure BlocRec where
  id : String
  name : String
deriving DecidableEq, Repr

/-- The `weeksMap` entry (lines 234-238). -/
structure WeekInfo where
  name : String
  dateDebut : Option Nat
  dateFin : Option Nat
deriving DecidableEq, Repr

/-- One event row pushed into a week's `events` (lines 307-312). -/
structure GridEvent where
  eventName : String
  eventId : String
  activeDays : List String
  blocNames : List String
deriving DecidableEq, Repr

/-- One entry of `gridData` (lines 298-306). -/
structure WeekGroup where
  weekId : String
  weekName : String
  dateDebut : Option Nat
  dateFin : Option Nat
  events : List GridEvent
deriving DecidableEq, Repr

/-- The week comparator of lines 317-321 (identical at
`src/routage/routage/frontend/index.js` lines 235-239):
`(a, b) => { if (!a.dateDebut) return 1; if (!b.dateDebut) return -1;
return a.dateDebut.getTime() - b.dateDebut.getTime(); }`. -/
def weekCompare (a b : WeekGroup) : Int :=
  match a.dateDebut with
  | none => 1
  | some da =>
    match b.dateDebut with
    | none => -1
    | some db => (da : Int) - (db : Int)

/-- The ordering realised by the stable `Array.prototype.sort(weekCompare)`:
an element `b` originally after `a` is moved before `a` exactly when
`weekCompare b a < 0`, so `a` stays (weakly) before `b` iff
`¬(weekCompare b a < 0)`. -/
def weekSortLe (a b : WeekGroup) : Bool := !decide (weekCompare b a < 0)

/-- The sorted grid groups `Array.from(gridData.values()).sort(...)` (lines 317-321), modelled
as the stable merge sort of the keep-`a`-before-`b` relation. -/
def sortedWeeks (l : List WeekGroup) : List WeekGroup := l.mergeSort weekSortLe

/-- The order the comparator realises, in direct terms: weeks with no start
date sort after all dated weeks, dated weeks sort by ascending start date. -/
def nullsLastLe (a b : WeekGroup) : Prop :=
  match a.dateDebut, b.dateDebut with
  | _, none => True
  | none, some _ => False
  | some da, some db => da ≤ db

/-- The spec's sort example: start dates [null, 2024-01-08, 2024-01-01]. -/
def c5ExampleWeeks : List WeekGroup :=
  [⟨"w1", "S1", none, none, []⟩,
   ⟨"w2", "S2", some 20240108, none, []⟩,
   ⟨"w3", "S3", some 20240101, none, []⟩]

/-- The expected sorted order: [2024-01-01, 2024-01-08, null]. -/
def c5ExampleSorted : List WeekGroup :=
  [⟨"w3", "S3", some 20240101, none, []⟩,
   ⟨"w2", "S2", some 20240108, none, []⟩,
   ⟨"w1", "S1", none, none, []⟩]

/-! ## Alert threshold (lines 18 and 563-576) -/

/-- The alert threshold of line 18: `const ALERT_THRESHOLD = 5;`. -/
def ALERT_THRESHOLD : Nat := 5

/-- The flag of line 564: `const overLimit = count > ALERT_THRESHOLD;`. -/
def overLimit (count : Nat) : Bool := decide (ALERT_THRESHOLD < count)

/-- The totals cell text `{count || ''}` (line 575): the digit string, except
that the falsy count 0 renders as the empty string. -/
def totalCellText (count : Nat) : String :=
  if count = 0 then "" else toString count

/-! ## Grid construction (lines 226-327) -/

/-- The `weeksMap` built at lines 230-239 (`Map.set` keyed by record id). -/
def weeksMapOf (weekRecords : List WeekRec) : String → Option WeekInfo :=
  weekRecords.foldl
    (fun m wr => fun wid =>
      if wid = wr.id then some ⟨wr.name, wr.dateDebut, wr.dateFin⟩ else m wid)
    (fun _ => none)

/-- The `blocsMap` built at lines 242-245. -/
def blocsMapOf (blocRecords : List BlocRec) : String → Option String :=
  blocRecords.foldl (fun m br => fun bid => if bid = br.id then some br.name else m bid)
    (fun _ => none)

/-- JS `Set.add`: append the element unless already present (JS `Set` keeps
first-insertion order; only membership is ever read). -/
def addToSet (acc : List String) (x : String) : List String :=
  if x ∈ acc then acc else acc ++ [x]

/-- The `activeDays` set of lines 275-281: the option names of the `jours`
cell, or empty when the cell is not an array. -/
def daysSetOf (jours : Option (List String)) : List String :=
  match jours with
  | some l => l.foldl addToSet []
  | none => []

/-- The `blocNames` set of lines 283-287: the names of the resolvable linked
blocs (unresolvable links are skipped). -/
def blocNamesOf (blocsMap : String → Option String) (blocIds : List String) : List String :=
  blocIds.foldl
    (fun acc bid =>
      match blocsMap bid with
      | some bn => addToSet acc bn
      | none => acc) []

/-- The site/canal filters of lines 251-265: with a selection, the event must
have a link array containing the selected id. -/
def passesLinkFilter (sel : Option String) (links : Option (List String)) : Bool :=
  match sel with
  | none => true
  | some s =>
    match links with
    | some l => l.contains s
    | none => false

/-- The week filter of lines 290-293. -/
def weekPasses (selWeek : Option String) (wid : String) : Bool :=
  match selWeek with
  | none => true
  | some s => wid == s

/-- Lines 298-312: create the week's `gridData` entry if absent, then push the
event row. -/
def addEventToWeek (grid : List WeekGroup) (wid : String) (wi : WeekInfo) (ge : GridEvent) :
    List WeekGroup :=
  if grid.any (fun wg => wg.weekId == wid) then
    grid.map (fun wg =>
      if wg.weekId = wid then { wg with events := wg.events ++ [ge] } else wg)
  else grid ++ [⟨wid, wi.name, wi.dateDebut, wi.dateFin, [ge]⟩]

/-- One iteration of the event loop (lines 250-314): apply the site and canal
filters, skip events with a null week-link or bloc-link cell, resolve the day
and bloc-name sets, then push one row per linked week that passes the week
filter and resolves in `weeksMap`. -/
def processEvent (weeksMap : String → Option WeekInfo) (blocsMap : String → Option String)
    (selSite selCanal selWeek : Option String) (grid : List WeekGroup) (ev : EventRec) :
    List WeekGroup :=
  if !passesLinkFilter selSite ev.siteLinks then grid
  else if !passesLinkFilter selCanal ev.canalLinks then grid
  else
    match ev.weekLinks with
    | none => grid
    | some weekIds =>
      match ev.blocLinks with
      | none => grid
      | some blocIds =>
        let activeDays := daysSetOf ev.jours
        let blocNames := blocNamesOf blocsMap blocIds
        weekIds.foldl
          (fun g wid =>
            if !weekPasses selWeek wid then g
            else
              match weeksMap wid with
              | none => g
              | some wi => addEventToWeek g wid wi ⟨ev.name, ev.id, activeDays, blocNames⟩)
          grid

/-- The `gridData` entries after the whole event loop (lines 248-314), in insertion order. -/
def buildGridRaw (events : List EventRec) (weeksMap : String → Option WeekInfo)
    (blocsMap : String → Option String) (selSite selCanal selWeek : Option String) :
    List WeekGroup :=
  events.foldl (processEvent weeksMap blocsMap selSite selCanal selWeek) []

/-- The value of the `sortedWeeks` memo (lines 226-327): the grid groups sorted
by the week comparator. -/
def buildGrid (events : List EventRec) (weeksMap : String → Option WeekInfo)
    (blocsMap : String → Option String) (selSite selCanal selWeek : Option String) :
    List WeekGroup :=
  sortedWeeks (buildGridRaw events weeksMap blocsMap selSite selCanal selWeek)

/-- The per-cell activity test shared by the row rendering (line 536,
`inBloc && event.activeDays.has(dayCode)`) and the totals loop (line 443). -/
def cellMark (ge : GridEvent) (blocName dayCode : String) : Bool :=
  ge.blocNames.contains blocName && ge.activeDays.contains dayCode

/-- The occupancy count of grid cell `(week, bloc, day)` (lines 437-449): the
number of event rows of that week marked active in that bloc/day column. -/
def cellCount (grid : List WeekGroup) (wid blocName dayCode : String) : Nat :=
  match grid.find? (fun wg => wg.weekId == wid) with
  | some wg => (wg.events.filter (fun ge => cellMark ge blocName dayCode)).length
  | none => 0

/-- The number of rows an event contributes to cell `(wid, blocName, dayCode)`:
zero unless it passes the filters, has non-null week and bloc link cells, and
is marked in that bloc/day; otherwise one row per occurrence of `wid` among
its week links that passes the week filter and resolves. -/
def eventContrib (weeksMap : String → Option WeekInfo) (blocsMap : String → Option String)
    (selSite selCanal selWeek : Option String) (ev : EventRec)
    (wid blocName dayCode : String) : Nat :=
  if passesLinkFilter selSite ev.siteLinks && passesLinkFilter selCanal ev.canalLinks then
    match ev.weekLinks, ev.blocLinks with
    | some weekIds, some blocIds =>
      if cellMark ⟨ev.name, ev.id, daysSetOf ev.jours, blocNamesOf blocsMap blocIds⟩
          blocName dayCode then
        (weekIds.filter (fun w => w == wid && weekPasses selWeek w &&
          (weeksMap w).isSome)).length
      else 0
    | _, _ => 0
  else 0

/-- Example records for claim C2. -/
def c2Weeks : List WeekRec := [⟨"w1", "W1", none, none⟩]

def c2Blocs : List BlocRec := [⟨"b1", "am"⟩]

/-- An event linked to week w1 and bloc b1 (named "am"), active on days D and L. -/
def c2Event : EventRec := ⟨"e1", "E1", some ["w1"], some ["b1"], some ["D", "L"], none, none⟩

/-- The same event with the week membership removed. -/
def c2EventNoWeek : EventRec := { c2Event with weekLinks := some [] }

/-! ## Rendered rows (C6) -/

/-- The grid invariant: every group's week id resolves in `weeksMap` and every
event row satisfies `R`. -/
def GridInv (weeksMap : String → Option WeekInfo) (R : GridEvent → Prop)
    (g : List WeekGroup) : Prop :=
  ∀ wg ∈ g, (weeksMap wg.weekId).isSome = true ∧ ∀ ge ∈ wg.events, R ge

/-- Example records for claim C6. -/
def c6Weeks : List WeekRec := [⟨"w1", "W1", none, none⟩]

/-- An event linked to week w1 and to a bloc id that resolves in no bloc
record. -/
def c6Event : EventRec := ⟨"e1", "E1", some ["w1"], some ["bX"], some ["D"], none, none⟩

/-! ## Theorems -/

theorem SalesVal.le_refl (a : SalesVal) : SalesVal.le a a :=
  ⟨Int.le_refl _, Int.le_refl _, Int.le_refl _⟩

theorem SalesVal.le_trans {a b c : SalesVal} (h₁ : SalesVal.le a b) (h₂ : SalesVal.le b c) :
    SalesVal.le a c :=
  ⟨Int.le_trans h₁.1 h₂.1, Int.le_trans h₁.2.1 h₂.2.1, Int.le_trans h₁.2.2 h₂.2.2⟩

theorem SalesVal.le_max2_left (a v : SalesVal) : SalesVal.le a (SalesVal.max2 a v) :=
  ⟨Int.le_max_left _ _, Int.le_max_left _ _, Int.le_max_left _ _⟩

theorem carryState_shift (byDay : Nat → Option SalesVal) (init : SalesVal) (d : Nat) :
    ∀ k, carryState byDay init d (k + 1) = carryState byDay (applyRow init (byDay d)) (d + 1) k := by
  intro k
  induction k with
  | zero => simp [carryState]
  | succ k ih =>
    show applyRow (carryState byDay init d (k + 1)) (byDay (d + (k + 1))) = _
    rw [ih]
    show _ = applyRow (carryState byDay (applyRow init (byDay d)) (d + 1) k) (byDay (d + 1 + k))
    have : d + (k + 1) = d + 1 + k := by omega
    rw [this]

theorem carrySeries_eq_map_range (byDay : Nat → Option SalesVal) :
    ∀ (n : Nat) (init : SalesVal) (d : Nat),
      carrySeries byDay init d n =
        (List.range n).map (fun i =>
          let v := carryState byDay init d (i + 1)
          ⟨d + i, v.sold, v.free, v.total⟩) := by
  intro n
  induction n with
  | zero => intro init d; rfl
  | succ n ih =>
    intro init d
    rw [List.range_succ_eq_map]
    show (⟨d, _, _, _⟩ : SeriesPoint) :: carrySeries byDay (applyRow init (byDay d)) (d + 1) n = _
    rw [List.map_cons, ih (applyRow init (byDay d)) (d + 1)]
    congr 1
    rw [List.map_map]
    apply List.map_congr_left
    intro i _
    show (⟨d + 1 + i, _, _, _⟩ : SeriesPoint) = _
    rw [← carryState_shift byDay init d (i + 1)]
    show _ = (⟨d + (i + 1), _, _, _⟩ : SeriesPoint)
    have harith : d + 1 + i = d + (i + 1) := by omega
    rw [harith]

theorem carryState_le_succ (byDay : Nat → Option SalesVal) (init : SalesVal) (d k : Nat) :
    SalesVal.le (carryState byDay init d k) (carryState byDay init d (k + 1)) := by
  show SalesVal.le _ (applyRow (carryState byDay init d k) (byDay (d + k)))
  cases byDay (d + k) with
  | some v => exact SalesVal.le_max2_left _ v
  | none => exact SalesVal.le_refl _

theorem carryState_mono (byDay : Nat → Option SalesVal) (init : SalesVal) (d : Nat)
    {i j : Nat} (h : i ≤ j) :
    SalesVal.le (carryState byDay init d i) (carryState byDay init d j) := by
  induction j with
  | zero =>
    have : i = 0 := Nat.le_zero.mp h
    subst this; exact SalesVal.le_refl _
  | succ j ih =>
    rcases Nat.lt_or_ge i (j + 1) with hlt | hge
    · exact SalesVal.le_trans (ih (Nat.lt_succ_iff.mp hlt)) (carryState_le_succ byDay init d j)
    · have : i = j + 1 := Nat.le_antisymm h hge
      subst this; exact SalesVal.le_refl _

/-- Claim C1: for every single-performance snapshot row set, the reconstructed
series has exactly one point per calendar day from the earliest to the latest
observed date; each point's value is the carry-forward state obtained by
element-wise maximum against that day's (last) row when present and carried
forward otherwise, so the series is monotonically non-decreasing in every
component. -/
theorem C1_single_mode_carry_forward (data : List SalesRow) (s e : Nat)
    (hs : startDay data = some s) (he : endDay data = some e) :
    reconstructSingle data =
      (List.range (e - s + 1)).map (fun i =>
        let v := carryState (byDayIndex data) SalesVal.zero s (i + 1)
        ⟨s + i, v.sold, v.free, v.total⟩) ∧
    (∀ p q, p ∈ reconstructSingle data → q ∈ reconstructSingle data → p.date ≤ q.date →
      p.ventes ≤ q.ventes ∧ p.gratuits ≤ q.gratuits ∧ p.total_dollars ≤ q.total_dollars) := by
  have hform : reconstructSingle data =
      (List.range (e - s + 1)).map (fun i =>
        let v := carryState (byDayIndex data) SalesVal.zero s (i + 1)
        ⟨s + i, v.sold, v.free, v.total⟩) := by
    unfold reconstructSingle
    rw [hs, he]
    exact carrySeries_eq_map_range (byDayIndex data) (e - s + 1) SalesVal.zero s
  refine ⟨hform, ?_⟩
  intro p q hp hq hle
  rw [hform] at hp hq
  rcases List.mem_map.mp hp with ⟨i, _hi, hpe⟩
  rcases List.mem_map.mp hq with ⟨j, _hj, hqe⟩
  have hdp : p.date = s + i := by rw [← hpe]
  have hdq : q.date = s + j := by rw [← hqe]
  have hij : i ≤ j := by omega
  have hmono := carryState_mono (byDayIndex data) SalesVal.zero s
    (Nat.add_le_add_right hij 1)
  have hpv : p.ventes = (carryState (byDayIndex data) SalesVal.zero s (i + 1)).sold := by
    rw [← hpe]
  have hpg : p.gratuits = (carryState (byDayIndex data) SalesVal.zero s (i + 1)).free := by
    rw [← hpe]
  have hpt : p.total_dollars = (carryState (byDayIndex data) SalesVal.zero s (i + 1)).total := by
    rw [← hpe]
  have hqv : q.ventes = (carryState (byDayIndex data) SalesVal.zero s (j + 1)).sold := by
    rw [← hqe]
  have hqg : q.gratuits = (carryState (byDayIndex data) SalesVal.zero s (j + 1)).free := by
    rw [← hqe]
  have hqt : q.total_dollars = (carryState (byDayIndex data) SalesVal.zero s (j + 1)).total := by
    rw [← hqe]
  rw [hpv, hpg, hpt, hqv, hqg, hqt]
  exact ⟨hmono.1, hmono.2.1, hmono.2.2⟩

/-- Witness for C1 at the spec's example: the series reports sold = 10 on
day 2 (no row: carry-forward) and on day 3 (row value 8 is lower: max keeps 10). -/
theorem C1_single_mode_carry_forward_witness :
    reconstructSingle c1ExampleRows =
      [⟨1, 10, 0, 0⟩, ⟨2, 10, 0, 0⟩, ⟨3, 10, 0, 0⟩] ∧
    (startDay c1ExampleRows = some 1 ∧ endDay c1ExampleRows = some 3 ∧
      (reconstructSingle c1ExampleRows =
        (List.range (3 - 1 + 1)).map (fun i =>
          let v := carryState (byDayIndex c1ExampleRows) SalesVal.zero 1 (i + 1)
          ⟨1 + i, v.sold, v.free, v.total⟩) ∧
      (∀ p q, p ∈ reconstructSingle c1ExampleRows → q ∈ reconstructSingle c1ExampleRows →
        p.date ≤ q.date →
        p.ventes ≤ q.ventes ∧ p.gratuits ≤ q.gratuits ∧ p.total_dollars ≤ q.total_dollars))) :=
  ⟨by decide, rfl, rfl, C1_single_mode_carry_forward c1ExampleRows 1 3 rfl rfl⟩

theorem foldl_congr_mem {α : Type} {β : Type u_2} (f g : β → α → β) :
    ∀ (l : List α) (b : β), (∀ acc x, x ∈ l → f acc x = g acc x) →
      l.foldl f b = l.foldl g b := by
  intro l
  induction l with
  | nil => intro b _; rfl
  | cons a l ih =>
    intro b h
    rw [List.foldl_cons, List.foldl_cons, h b a (List.mem_cons_self a l)]
    exact ih _ (fun acc x hx => h acc x (List.mem_cons_of_mem a hx))

theorem sumOver_congr (rids : List String) (f g : String → Option SalesVal)
    (h : ∀ r ∈ rids, f r = g r) : sumOver rids f = sumOver rids g := by
  unfold sumOver
  apply foldl_congr_mem
  intro acc x hx
  rw [h x hx]

theorem ridStateFrom_shift (byRecord : String → Nat → Option SalesVal) (rid : String)
    (init : Option SalesVal) (d : Nat) :
    ∀ k, ridStateFrom byRecord rid init d (k + 1) =
      ridStateFrom byRecord rid (ridUpdate byRecord rid init d) (d + 1) k := by
  intro k
  induction k with
  | zero => show ridUpdate byRecord rid init (d + 0) = _; rfl
  | succ k ih =>
    show ridUpdate byRecord rid (ridStateFrom byRecord rid init d (k + 1)) (d + (k + 1)) = _
    rw [ih]
    show _ = ridUpdate byRecord rid
      (ridStateFrom byRecord rid (ridUpdate byRecord rid init d) (d + 1) k) (d + 1 + k)
    have harith : d + (k + 1) = d + 1 + k := by omega
    rw [harith]

theorem aggDay_go (byRecord : String → Nat → Option SalesVal) (day : Nat) :
    ∀ (rids : List String) (lk0 : String → Option SalesVal) (s0 : SalesVal),
      rids.Nodup →
      rids.foldl
        (fun (acc : (String → Option SalesVal) × SalesVal) rid =>
          let lkRid := ridUpdate byRecord rid (acc.1 rid) day
          (fun r => if r = rid then lkRid else acc.1 r, addOpt acc.2 lkRid))
        (lk0, s0) =
      ((fun r => if r ∈ rids then ridUpdate byRecord r (lk0 r) day else lk0 r),
       rids.foldl (fun sums rid => addOpt sums (ridUpdate byRecord rid (lk0 rid) day)) s0) := by
  intro rids
  induction rids with
  | nil =>
    intro lk0 s0 _
    have hfun : (fun r => if r ∈ ([] : List String) then ridUpdate byRecord r (lk0 r) day
        else lk0 r) = lk0 := by
      funext r
      simp
    rw [hfun]
    rfl
  | cons rid rest ih =>
    intro lk0 s0 hnd
    have hmem : rid ∉ rest := (List.nodup_cons.mp hnd).1
    have hndr : rest.Nodup := (List.nodup_cons.mp hnd).2
    rw [List.foldl_cons]
    rw [ih (fun r => if r = rid then ridUpdate byRecord rid (lk0 rid) day else lk0 r)
      (addOpt s0 (ridUpdate byRecord rid (lk0 rid) day)) hndr]
    have hfst : (fun r => if r ∈ rest then
          ridUpdate byRecord r
            (if r = rid then ridUpdate byRecord rid (lk0 rid) day else lk0 r) day
          else if r = rid then ridUpdate byRecord rid (lk0 rid) day else lk0 r) =
        (fun r => if r ∈ rid :: rest then ridUpdate byRecord r (lk0 r) day else lk0 r) := by
      funext r
      by_cases hr : r ∈ rest
      · have hne : r ≠ rid := fun h => hmem (h ▸ hr)
        simp [hr, hne, List.mem_cons]
      · by_cases he : r = rid
        · subst he
          simp [hr, List.mem_cons]
        · simp [hr, he, List.mem_cons]
    have hsnd : rest.foldl
        (fun sums rid' => addOpt sums (ridUpdate byRecord rid'
          (if rid' = rid then ridUpdate byRecord rid (lk0 rid) day else lk0 rid') day))
        (addOpt s0 (ridUpdate byRecord rid (lk0 rid) day)) =
        rest.foldl (fun sums rid' => addOpt sums (ridUpdate byRecord rid' (lk0 rid') day))
        (addOpt s0 (ridUpdate byRecord rid (lk0 rid) day)) := by
      apply foldl_congr_mem
      intro acc x hx
      have hne : x ≠ rid := fun h => hmem (h ▸ hx)
      rw [if_neg hne]
    rw [hfst, hsnd]
    rfl

theorem aggDay_eq (byRecord : String → Nat → Option SalesVal) (rids : List String)
    (hnd : rids.Nodup) (lk : String → Option SalesVal) (day : Nat) :
    aggDay byRecord rids lk day =
      ((fun r => if r ∈ rids then ridUpdate byRecord r (lk r) day else lk r),
       sumOver rids (fun r => ridUpdate byRecord r (lk r) day)) :=
  aggDay_go byRecord day rids lk SalesVal.zero hnd

theorem aggSeries_eq_map_range (byRecord : String → Nat → Option SalesVal)
    (rids : List String) (hnd : rids.Nodup) :
    ∀ (n : Nat) (lk : String → Option SalesVal) (d : Nat),
      aggSeries byRecord rids lk d n =
        (List.range n).map (fun i =>
          let v := sumOver rids (fun r => ridStateFrom byRecord r (lk r) d (i + 1))
          ⟨d + i, v.sold, v.free, v.total⟩) := by
  intro n
  induction n with
  | zero => intro lk d; rfl
  | succ n ih =>
    intro lk d
    rw [List.range_succ_eq_map]
    show (⟨d, (aggDay byRecord rids lk d).2.sold, (aggDay byRecord rids lk d).2.free,
        (aggDay byRecord rids lk d).2.total⟩ : SeriesPoint) ::
        aggSeries byRecord rids (aggDay byRecord rids lk d).1 (d + 1) n = _
    rw [List.map_cons, aggDay_eq byRecord rids hnd lk d, ih]
    congr 1
    rw [List.map_map]
    apply List.map_congr_left
    intro i _
    show (⟨d + 1 + i, _, _, _⟩ : SeriesPoint) = (⟨d + (i + 1), _, _, _⟩ : SeriesPoint)
    have harith : d + 1 + i = d + (i + 1) := by omega
    rw [harith]
    have hsum : sumOver rids (fun r =>
        ridStateFrom byRecord r
          (if r ∈ rids then ridUpdate byRecord r (lk r) d else lk r) (d + 1) (i + 1)) =
        sumOver rids (fun r => ridStateFrom byRecord r (lk r) d (i + 1 + 1)) := by
      apply sumOver_congr
      intro r hr
      rw [if_pos hr, ← ridStateFrom_shift]
    rw [hsum]

theorem recordIds_nodup_go :
    ∀ (data : List SalesRow) (acc : List String), acc.Nodup →
      (data.foldl
        (fun acc row => if row.record_id ∈ acc then acc else acc ++ [row.record_id])
        acc).Nodup := by
  intro data
  induction data with
  | nil => intro acc h; exact h
  | cons row rest ih =>
    intro acc h
    rw [List.foldl_cons]
    by_cases hmem : row.record_id ∈ acc
    · rw [if_pos hmem]; exact ih acc h
    · rw [if_neg hmem]
      apply ih
      rw [List.nodup_append]
      exact ⟨h, List.nodup_singleton _, fun a ha hb => by
        rw [List.mem_singleton] at hb
        exact hmem (hb ▸ ha)⟩

theorem recordIds_nodup (data : List SalesRow) : (recordIds data).Nodup :=
  recordIds_nodup_go data [] List.nodup_nil

theorem ridStateFrom_none (byRecord : String → Nat → Option SalesVal) (rid : String) (d : Nat) :
    ∀ k, (∀ j, j < k → byRecord rid (d + j) = none) →
      ridStateFrom byRecord rid none d k = none := by
  intro k
  induction k with
  | zero => intro _; rfl
  | succ k ih =>
    intro h
    show ridUpdate byRecord rid (ridStateFrom byRecord rid none d k) (d + k) = none
    unfold ridUpdate
    rw [h k (Nat.lt_succ_self k), ih (fun j hj => h j (Nat.lt_succ_of_lt hj))]

/-- Claim C3: in aggregate mode, the carry-forward reconstruction is applied
independently per performance identifier over the union day span (earliest to
latest observed date across all rows), each day's point being the sum of the
records' carried-forward states; a record whose index has no row up to a given
day still has no state there (and so contributes zero to the sums). -/
theorem C3_aggregate_mode_sum (data : List SalesRow) (s e : Nat)
    (hs : startDay data = some s) (he : endDay data = some e) :
    reconstructAgg data =
      (List.range (e - s + 1)).map (fun i =>
        let v := sumOver (recordIds data)
          (fun rid => ridStateFrom (byRecordIndex data) rid none s (i + 1))
        ⟨s + i, v.sold, v.free, v.total⟩) ∧
    (∀ rid k, (∀ j, j < k → byRecordIndex data rid (s + j) = none) →
      ridStateFrom (byRecordIndex data) rid none s k = none) := by
  constructor
  · unfold reconstructAgg
    rw [hs, he]
    exact aggSeries_eq_map_range (byRecordIndex data) (recordIds data)
      (recordIds_nodup data) (e - s + 1) (fun _ => none) s
  · intro rid k h
    exact ridStateFrom_none (byRecordIndex data) rid s k h

/-- Witness for C3 at the spec's example: the summed series is [5,8,10]. -/
theorem C3_aggregate_mode_sum_witness :
    reconstructAgg c3ExampleRows =
      [⟨1, 5, 0, 0⟩, ⟨2, 8, 0, 0⟩, ⟨3, 10, 0, 0⟩] ∧
    (startDay c3ExampleRows = some 1 ∧ endDay c3ExampleRows = some 3 ∧
      (reconstructAgg c3ExampleRows =
        (List.range (3 - 1 + 1)).map (fun i =>
          let v := sumOver (recordIds c3ExampleRows)
            (fun rid => ridStateFrom (byRecordIndex c3ExampleRows) rid none 1 (i + 1))
          ⟨1 + i, v.sold, v.free, v.total⟩) ∧
      (∀ rid k, (∀ j, j < k → byRecordIndex c3ExampleRows rid (1 + j) = none) →
        ridStateFrom (byRecordIndex c3ExampleRows) rid none 1 k = none))) :=
  ⟨by decide, rfl, rfl, C3_aggregate_mode_sum c3ExampleRows 1 3 rfl rfl⟩

theorem byDayIndex_go (d : Nat) :
    ∀ (data : List SalesRow) (acc : Nat → Option SalesVal),
      (data.foldl (fun byDay row => fun x => if x = row.date then some row.val else byDay x)
        acc) d =
      match data.reverse.find? (fun r => r.date == d) with
      | some r => some r.val
      | none => acc d := by
  intro data
  induction data with
  | nil => intro acc; rfl
  | cons row rest ih =>
    intro acc
    rw [List.foldl_cons, ih, List.reverse_cons, List.find?_append]
    cases hfind : rest.reverse.find? (fun r => r.date == d) with
    | some r => simp [hfind]
    | none =>
      simp only [hfind, Option.none_or]
      by_cases hd : row.date = d
      · have hfr : List.find? (fun r => r.date == d) [row] = some row := by
          simp [List.find?, hd]
        rw [hfr]
        show (if d = row.date then some row.val else acc d) = some row.val
        rw [if_pos hd.symm]
      · have hfr : List.find? (fun r => r.date == d) [row] = none := by
          have hb : (row.date == d) = false := by simp [hd]
          simp [List.find?, hb]
        rw [hfr]
        show (if d = row.date then some row.val else acc d) = acc d
        rw [if_neg (fun h => hd h.symm)]

theorem byRecordIndex_go (rid : String) (d : Nat) :
    ∀ (data : List SalesRow) (acc : String → Nat → Option SalesVal),
      (data.foldl
        (fun byRecord row => fun r x =>
          if r = row.record_id ∧ x = row.date then some row.val else byRecord r x)
        acc) rid d =
      match data.reverse.find? (fun r => r.record_id == rid && r.date == d) with
      | some r => some r.val
      | none => acc rid d := by
  intro data
  induction data with
  | nil => intro acc; rfl
  | cons row rest ih =>
    intro acc
    rw [List.foldl_cons, ih, List.reverse_cons, List.find?_append]
    cases hfind : rest.reverse.find? (fun r => r.record_id == rid && r.date == d) with
    | some r => simp [hfind]
    | none =>
      simp only [hfind, Option.none_or]
      by_cases hmatch : row.record_id = rid ∧ row.date = d
      · have hfr : List.find? (fun r => r.record_id == rid && r.date == d) [row] = some row := by
          simp [List.find?, hmatch.1, hmatch.2]
        rw [hfr]
        show (if rid = row.record_id ∧ d = row.date then some row.val else acc rid d) =
          some row.val
        rw [if_pos ⟨hmatch.1.symm, hmatch.2.symm⟩]
      · have hfr : List.find? (fun r => r.record_id == rid && r.date == d) [row] = none := by
          have hb : (row.record_id == rid && row.date == d) = false := by
            by_cases h1 : row.record_id = rid
            · have h2 : row.date ≠ d := fun h => hmatch ⟨h1, h⟩
              simp [h1, h2]
            · simp [h1]
          simp [List.find?, hb]
        rw [hfr]
        show (if rid = row.record_id ∧ d = row.date then some row.val else acc rid d) = acc rid d
        rw [if_neg (fun h => hmatch ⟨h.1.symm, h.2.symm⟩)]

/-- Claim C10: when the fetched rows contain several snapshot rows for the same
performance and calendar day, only the last such row in fetch order is retained
by the per-day index (`byDay[day] = ...` / `byRecord[rid][day] = ...`
overwrite), so an earlier, higher same-day value never enters the maximum:
two same-day rows with sold 10 then 3 reconstruct to a single point with
sold 3 in both modes. -/
theorem C10_same_day_last_write_wins :
    (∀ (data : List SalesRow) (d : Nat),
      byDayIndex data d = (data.reverse.find? (fun r => r.date == d)).map SalesRow.val) ∧
    (∀ (data : List SalesRow) (rid : String) (d : Nat),
      byRecordIndex data rid d =
        (data.reverse.find? (fun r => r.record_id == rid && r.date == d)).map SalesRow.val) ∧
    reconstructSingle [⟨"perf1", 1, 10, 0, 0⟩, ⟨"perf1", 1, 3, 0, 0⟩] = [⟨1, 3, 0, 0⟩] ∧
    reconstructAgg [⟨"perf1", 1, 10, 0, 0⟩, ⟨"perf1", 1, 3, 0, 0⟩] = [⟨1, 3, 0, 0⟩] := by
  refine ⟨?_, ?_, by decide, by decide⟩
  · intro data d
    rw [show byDayIndex data d =
        (data.foldl (fun byDay row => fun x => if x = row.date then some row.val else byDay x)
          (fun _ => none)) d from rfl]
    rw [byDayIndex_go d data (fun _ => none)]
    cases data.reverse.find? (fun r => r.date == d) <;> rfl
  · intro data rid d
    rw [show byRecordIndex data rid d =
        (data.foldl
          (fun byRecord row => fun r x =>
            if r = row.record_id ∧ x = row.date then some row.val else byRecord r x)
          (fun _ _ => none)) rid d from rfl]
    rw [byRecordIndex_go rid d data (fun _ _ => none)]
    cases data.reverse.find? (fun r => r.record_id == rid && r.date == d) <;> rfl

theorem filteredSalesData_eq_filter (salesData : List SeriesPoint)
    (dateFrom dateTo : Option Nat) :
    filteredSalesData salesData dateFrom dateTo =
      salesData.filter (inPeriod dateFrom dateTo) := by
  unfold filteredSalesData
  by_cases hnil : salesData.length = 0
  · rw [if_pos hnil]
    rw [List.length_eq_zero] at hnil
    rw [hnil, List.filter_nil]
  · rw [if_neg hnil]
    cases dateFrom with
    | none =>
      cases dateTo with
      | none =>
        show salesData = _
        have : salesData.filter (inPeriod none none) = salesData.filter (fun _ => true) := by
          apply List.filter_congr
          intro x _
          rfl
        rw [this, List.filter_true]
      | some t =>
        show salesData.filter (fun d => decide (d.date ≤ t)) = _
        apply List.filter_congr
        intro x _
        show decide (x.date ≤ t) = inPeriod none (some t) x
        unfold inPeriod
        rw [Bool.true_and]
    | some f =>
      cases dateTo with
      | none =>
        show salesData.filter (fun d => decide (f ≤ d.date)) = _
        apply List.filter_congr
        intro x _
        show decide (f ≤ x.date) = inPeriod (some f) none x
        unfold inPeriod
        rw [Bool.and_true]
      | some t =>
        show (salesData.filter (fun d => decide (f ≤ d.date))).filter
            (fun d => decide (d.date ≤ t)) = _
        rw [List.filter_filter]
        apply List.filter_congr
        intro x _
        show (decide (x.date ≤ t) && decide (f ≤ x.date)) =
          (decide (f ≤ x.date) && decide (x.date ≤ t))
        rw [Bool.and_comm]

theorem head_filter_pred {p : SeriesPoint → Bool} :
    ∀ {l : List SeriesPoint} {x : SeriesPoint}, (l.filter p).head? = some x → p x = true := by
  intro l
  induction l with
  | nil => intro x h; exact absurd h (by simp)
  | cons a l ih =>
    intro x h
    by_cases hp : p a
    · rw [List.filter_cons_of_pos hp] at h
      have hx : x = a := by
        rw [List.head?_cons, Option.some_inj] at h
        exact h.symm
      rw [hx]; exact hp
    · rw [List.filter_cons_of_neg hp] at h
      exact ih h

theorem indexOf_head_filter {p : SeriesPoint → Bool} :
    ∀ (l : List SeriesPoint) (x : SeriesPoint), (l.filter p).head? = some x →
      l.indexOf x = l.findIdx p := by
  intro l
  induction l with
  | nil => intro x h; exact absurd h (by simp)
  | cons a l ih =>
    intro x h
    by_cases hp : p a
    · rw [List.filter_cons_of_pos hp, List.head?_cons, Option.some_inj] at h
      have hx : a = x := h
      rw [List.indexOf_cons, List.findIdx_cons, hx]
      have hbeq : (x == x) = true := beq_self_eq_true x
      have hpx : p x = true := hx ▸ hp
      rw [hbeq, hpx]
      rfl
    · rw [List.filter_cons_of_neg hp] at h
      have hpx : p x = true := head_filter_pred h
      have hne : (a == x) = false := by
        apply beq_eq_false_iff_ne.mpr
        intro hax
        rw [hax] at hp
        exact hp hpx
      rw [List.indexOf_cons, List.findIdx_cons, hne]
      have hpa : p a = false := by
        cases hpa : p a with
        | true => exact absurd hpa hp
        | false => rfl
      rw [hpa]
      show (l.indexOf x) + 1 = (l.findIdx p) + 1
      rw [ih x h]

/-- Claim C4: for every series and every inclusive from/to date-range filter,
the derived period statistic (`periodStats`) equals the spec's formulation
(`periodDeltaSpec`): cumulative value at the last in-range point minus the
cumulative value of the point immediately preceding the first in-range point,
zero baseline when the range starts at the series' beginning; on the spec's
example series [0,4,10,10,15] over days 1-5 a filter of days 3-5 yields
15 - 4 = 11. -/
theorem C4_period_delta :
    (∀ (salesData : List SeriesPoint) (dateFrom dateTo : Option Nat),
      periodStats salesData dateFrom dateTo = periodDeltaSpec salesData dateFrom dateTo) ∧
    reconstructSingle [⟨"p", 1, 0, 0, 0⟩, ⟨"p", 2, 4, 0, 0⟩, ⟨"p", 3, 10, 0, 0⟩,
        ⟨"p", 5, 15, 0, 0⟩] =
      [⟨1, 0, 0, 0⟩, ⟨2, 4, 0, 0⟩, ⟨3, 10, 0, 0⟩, ⟨4, 10, 0, 0⟩, ⟨5, 15, 0, 0⟩] ∧
    periodStats [⟨1, 0, 0, 0⟩, ⟨2, 4, 0, 0⟩, ⟨3, 10, 0, 0⟩, ⟨4, 10, 0, 0⟩, ⟨5, 15, 0, 0⟩]
      (some 3) (some 5) = some ⟨11, 0⟩ := by
  refine ⟨?_, by decide, by decide⟩
  intro salesData dateFrom dateTo
  unfold periodStats periodDeltaSpec
  rw [filteredSalesData_eq_filter]
  cases hh : (salesData.filter (inPeriod dateFrom dateTo)).head? with
  | none =>
    rw [List.head?_eq_none_iff] at hh
    rw [hh]
    rfl
  | some first =>
    have hnn : salesData.filter (inPeriod dateFrom dateTo) ≠ [] := by
      intro hc
      rw [hc] at hh
      exact absurd hh (by simp)
    cases hl : (salesData.filter (inPeriod dateFrom dateTo)).getLast? with
    | none => exact absurd (List.getLast?_eq_none_iff.mp hl) hnn
    | some lastP =>
      simp only [hh, hl]
      rw [indexOf_head_filter salesData first hh]
      by_cases hk : salesData.findIdx (inPeriod dateFrom dateTo) = 0
      · rw [hk]
        rfl
      · have hpos : 0 < salesData.findIdx (inPeriod dateFrom dateTo) := Nat.pos_of_ne_zero hk
        rw [if_pos hpos, if_neg hk]

theorem fetchLoop_terminates {α : Type} (remote : List α) :
    ∀ (fuel offset : Nat), fuel = (remote.length - offset) / pageSize + 1 →
      fetchLoop remote offset fuel = some (remote.drop offset) := by
  intro fuel
  induction fuel with
  | zero => intro offset h; exact absurd h.symm (Nat.succ_ne_zero _)
  | succ fuel ih =>
    intro offset h
    have hlen : (fetchPage remote offset).length = min pageSize (remote.length - offset) := by
      unfold fetchPage
      rw [List.length_take, List.length_drop]
    by_cases hshort : remote.length - offset < pageSize
    · have hp : (fetchPage remote offset).length < pageSize := by
        rw [hlen]; omega
      show (if (fetchPage remote offset).length < pageSize then some (fetchPage remote offset)
        else _) = _
      rw [if_pos hp]
      unfold fetchPage
      rw [List.take_of_length_le (by rw [List.length_drop]; omega)]
    · have hp : ¬ (fetchPage remote offset).length < pageSize := by
        rw [hlen]; omega
      show (if (fetchPage remote offset).length < pageSize then some (fetchPage remote offset)
        else _) = _
      rw [if_neg hp]
      have hfuel : fuel = (remote.length - (offset + pageSize)) / pageSize + 1 := by
        have hge : pageSize ≤ remote.length - offset := Nat.le_of_not_lt hshort
        have harith : remote.length - offset - pageSize = remote.length - (offset + pageSize) := by
          omega
        have hdiv : (remote.length - offset) / pageSize =
            (remote.length - (offset + pageSize)) / pageSize + 1 := by
          rw [← harith]
          exact Nat.div_eq_sub_div (by unfold pageSize; omega) hge
        omega
      rw [ih (offset + pageSize) hfuel]
      show some (fetchPage remote offset ++ remote.drop (offset + pageSize)) = _
      unfold fetchPage
      have hdd : remote.drop (offset + pageSize) = (remote.drop offset).drop pageSize := by
        rw [List.drop_drop]
      rw [hdd, List.take_append_drop]

theorem fetchLoop_needs_fuel {α : Type} (remote : List α) :
    ∀ (fuel offset : Nat), fuel = (remote.length - offset) / pageSize →
      fetchLoop remote offset fuel = none := by
  intro fuel
  induction fuel with
  | zero => intro offset _; rfl
  | succ fuel ih =>
    intro offset h
    have hge : pageSize ≤ remote.length - offset := by
      by_contra hlt
      rw [Nat.div_eq_of_lt (Nat.lt_of_not_le hlt)] at h
      omega
    have hlen : (fetchPage remote offset).length = min pageSize (remote.length - offset) := by
      unfold fetchPage
      rw [List.length_take, List.length_drop]
    have hp : ¬ (fetchPage remote offset).length < pageSize := by
      rw [hlen]; omega
    show (if (fetchPage remote offset).length < pageSize then some (fetchPage remote offset)
      else _) = _
    rw [if_neg hp]
    have hfuel : fuel = (remote.length - (offset + pageSize)) / pageSize := by
      have harith : remote.length - offset - pageSize = remote.length - (offset + pageSize) := by
        omega
      have hdiv : (remote.length - offset) / pageSize =
          (remote.length - (offset + pageSize)) / pageSize + 1 := by
        rw [← harith]
        exact Nat.div_eq_sub_div (by unfold pageSize; omega) hge
      omega
    rw [ih (offset + pageSize) hfuel]

/-- Claim C7: the pagination loop requests pages of fixed size 1000 and
terminates exactly when a returned page is shorter than 1000 rows — it finishes
(returning all rows concatenated in order) with `length / 1000 + 1` page
requests and not with fewer — and a remote set of 2400 rows (pages of
1000, 1000, 400) is fully concatenated after exactly 3 requests. -/
theorem C7_pagination_termination :
    (∀ {α : Type} (remote : List α),
      fetchLoop remote 0 (remote.length / pageSize + 1) = some remote ∧
      fetchLoop remote 0 (remote.length / pageSize) = none) ∧
    fetchLoop (List.replicate 2400 (0 : Nat)) 0 3 = some (List.replicate 2400 (0 : Nat)) ∧
    fetchLoop (List.replicate 2400 (0 : Nat)) 0 2 = none := by
  have hmain : ∀ {α : Type} (remote : List α),
      fetchLoop remote 0 (remote.length / pageSize + 1) = some remote ∧
      fetchLoop remote 0 (remote.length / pageSize) = none := by
    intro α remote
    constructor
    · have h := fetchLoop_terminates remote (remote.length / pageSize + 1) 0
        (by rw [Nat.sub_zero])
      rw [List.drop_zero] at h
      exact h
    · exact fetchLoop_needs_fuel remote (remote.length / pageSize) 0 (by rw [Nat.sub_zero])
  refine ⟨hmain, ?_, ?_⟩
  · have h := (hmain (List.replicate 2400 (0 : Nat))).1
    rw [List.length_replicate] at h
    have hdiv : (2400 : Nat) / pageSize + 1 = 3 := by unfold pageSize; omega
    rw [hdiv] at h
    exact h
  · have h := (hmain (List.replicate 2400 (0 : Nat))).2
    rw [List.length_replicate] at h
    have hdiv : (2400 : Nat) / pageSize = 2 := by unfold pageSize; omega
    rw [hdiv] at h
    exact h

theorem stepFetch_issued (keyOf : Nat → String) (dataOf : Nat → List SeriesPoint)
    (s : FetchState) (e : FetchEvent) :
    (stepFetch keyOf dataOf s e).issued =
      s.issued + (if e = FetchEvent.issue then 1 else 0) := by
  cases e with
  | issue => rfl
  | page n => rfl
  | commit n =>
    show (if n + 1 = s.issued then _ else s).issued = s.issued + 0
    by_cases h : n + 1 = s.issued
    · rw [if_pos h]
      rfl
    · rw [if_neg h]
      rfl

theorem foldl_stepFetch_issued (keyOf : Nat → String) (dataOf : Nat → List SeriesPoint) :
    ∀ (events : List FetchEvent) (s : FetchState),
      (events.foldl (stepFetch keyOf dataOf) s).issued = s.issued + issueCount events := by
  intro events
  induction events with
  | nil => intro s; rfl
  | cons e rest ih =>
    intro s
    rw [List.foldl_cons, ih]
    rw [stepFetch_issued]
    unfold issueCount
    cases e with
    | issue => simp [List.filter_cons]; omega
    | page n => simp [List.filter_cons]
    | commit n => simp [List.filter_cons]

theorem stale_suffix_preserves (keyOf : Nat → String) (dataOf : Nat → List SeriesPoint) (n : Nat) :
    ∀ (rest : List FetchEvent) (s : FetchState),
      issueCount rest = 0 → s.issued = n + 1 →
      s.displayed = some (dataOf n) → s.cache (keyOf n) = some (dataOf n) →
      (rest.foldl (stepFetch keyOf dataOf) s).displayed = some (dataOf n) ∧
      (rest.foldl (stepFetch keyOf dataOf) s).cache (keyOf n) = some (dataOf n) := by
  intro rest
  induction rest with
  | nil => intro s _ _ hd hc; exact ⟨hd, hc⟩
  | cons e rest ih =>
    intro s hic hiss hd hc
    rw [List.foldl_cons]
    have hie : e ≠ FetchEvent.issue ∧ issueCount rest = 0 := by
      unfold issueCount at hic ⊢
      rw [List.filter_cons] at hic
      by_cases he : e = FetchEvent.issue
      · rw [he] at hic
        simp at hic
      · constructor
        · exact he
        · have hbe : (e == FetchEvent.issue) = false := by
            rw [beq_eq_false_iff_ne]
            exact he
          rw [hbe] at hic
          exact hic
    apply ih _ hie.2
    · rw [stepFetch_issued, if_neg hie.1, hiss]
    · cases e with
      | issue => exact absurd rfl hie.1
      | page m => exact hd
      | commit m =>
        show (if m + 1 = s.issued then _ else s).displayed = _
        by_cases hm : m + 1 = s.issued
        · rw [if_pos hm]
          have : m = n := by omega
          rw [this]
        · rw [if_neg hm]; exact hd
    · cases e with
      | issue => exact absurd rfl hie.1
      | page m => exact hc
      | commit m =>
        show (if m + 1 = s.issued then _ else s).cache (keyOf n) = _
        by_cases hm : m + 1 = s.issued
        · rw [if_pos hm]
          have hmn : m = n := by omega
          rw [hmn]
          show (if keyOf n = keyOf n then _ else _) = _
          rw [if_pos rfl]
        · rw [if_neg hm]; exact hc

/-- Claim C8: the displayed series and the cache are only ever written by the
latest issued (non-cancelled) request.  In any schedule whose total number of
issued requests is `n + 1` and in which request `n` commits after all issues
— while any number of page fetches and commits of superseded requests (such as
an earlier request completing late) may still follow — the final displayed
series and the final cache entry for request `n`'s key are exactly request
`n`'s data. -/
theorem C8_latest_issued_request_wins (keyOf : Nat → String)
    (dataOf : Nat → List SeriesPoint) (n : Nat)
    (before after : List FetchEvent)
    (hbefore : issueCount before = n + 1)
    (hafter : issueCount after = 0) :
    (runFetch keyOf dataOf (before ++ FetchEvent.commit n :: after)).displayed =
      some (dataOf n) ∧
    (runFetch keyOf dataOf (before ++ FetchEvent.commit n :: after)).cache (keyOf n) =
      some (dataOf n) := by
  unfold runFetch
  rw [List.foldl_append, List.foldl_cons]
  set s1 := before.foldl (stepFetch keyOf dataOf) ⟨0, none, fun _ => none⟩ with hs1
  have hiss1 : s1.issued = n + 1 := by
    rw [hs1, foldl_stepFetch_issued, hbefore]
    show 0 + (n + 1) = n + 1
    omega
  have hcommit : stepFetch keyOf dataOf s1 (FetchEvent.commit n) =
      { s1 with displayed := some (dataOf n),
                cache := fun k => if k = keyOf n then some (dataOf n) else s1.cache k } := by
    show (if n + 1 = s1.issued then _ else s1) = _
    rw [if_pos hiss1.symm]
  rw [hcommit]
  apply stale_suffix_preserves keyOf dataOf n after _ hafter
  · show s1.issued = n + 1
    exact hiss1
  · rfl
  · show (if keyOf n = keyOf n then some (dataOf n) else s1.cache (keyOf n)) = some (dataOf n)
    rw [if_pos rfl]

/-- Witness for C8: request 0 (for one selection) is issued, then request 1
(for another selection) supersedes it; request 1 commits, then request 0
completes late and reaches its commit step.  The displayed series is request
1's data, and request 0 never wrote the cache. -/
theorem C8_latest_issued_request_wins_witness :
    issueCount [FetchEvent.issue, FetchEvent.issue] = 0 + 1 + 1 ∧
    issueCount [FetchEvent.commit 0] = 0 ∧
    ((runFetch (fun m => toString m) (fun m => [⟨m, Int.ofNat m, 0, 0⟩])
        ([FetchEvent.issue, FetchEvent.issue] ++
          FetchEvent.commit 1 :: [FetchEvent.commit 0])).displayed =
      some [⟨1, 1, 0, 0⟩] ∧
    (runFetch (fun m => toString m) (fun m => [⟨m, Int.ofNat m, 0, 0⟩])
        ([FetchEvent.issue, FetchEvent.issue] ++
          FetchEvent.commit 1 :: [FetchEvent.commit 0])).cache (toString 1) =
      some [⟨1, 1, 0, 0⟩]) ∧
    (runFetch (fun m => toString m) (fun m => [⟨m, Int.ofNat m, 0, 0⟩])
        ([FetchEvent.issue, FetchEvent.issue] ++
          FetchEvent.commit 1 :: [FetchEvent.commit 0])).cache (toString 0) = none := by
  refine ⟨by decide, by decide, ?_, by decide⟩
  exact C8_latest_issued_request_wins (fun m => toString m) (fun m => [⟨m, Int.ofNat m, 0, 0⟩])
    1 [FetchEvent.issue, FetchEvent.issue] [FetchEvent.commit 0] (by decide) (by decide)

theorem weekSortLe_eq (a b : WeekGroup) :
    weekSortLe a b =
      match a.dateDebut, b.dateDebut with
      | _, none => true
      | none, some _ => false
      | some da, some db => decide (da ≤ db) := by
  unfold weekSortLe weekCompare
  cases ha : a.dateDebut with
  | none =>
    cases hb : b.dateDebut with
    | none => rfl
    | some db => rfl
  | some da =>
    cases hb : b.dateDebut with
    | none => rfl
    | some db =>
      show (!decide ((db : Int) - (da : Int) < 0)) = decide (da ≤ db)
      by_cases h : da ≤ db
      · have h1 : ¬ ((db : Int) - (da : Int) < 0) := by omega
        simp [h1, h]
      · have h1 : (db : Int) - (da : Int) < 0 := by omega
        simp [h1, h]

theorem weekSortLe_trans (a b c : WeekGroup) (h1 : weekSortLe a b = true)
    (h2 : weekSortLe b c = true) : weekSortLe a c = true := by
  rw [weekSortLe_eq] at h1 h2 ⊢
  cases ha : a.dateDebut <;> cases hb : b.dateDebut <;> cases hc : c.dateDebut
  all_goals simp_all
  all_goals omega

theorem weekSortLe_total (a b : WeekGroup) : (weekSortLe a b || weekSortLe b a) = true := by
  rw [weekSortLe_eq, weekSortLe_eq]
  cases ha : a.dateDebut with
  | none =>
    cases hb : b.dateDebut with
    | none => rfl
    | some db => rfl
  | some da =>
    cases hb : b.dateDebut with
    | none => rfl
    | some db =>
      show (decide (da ≤ db) || decide (db ≤ da)) = true
      by_cases h : da ≤ db
      · simp [h]
      · simp [h]
        omega

theorem nullsLastLe_of_weekSortLe {a b : WeekGroup} (h : weekSortLe a b = true) :
    nullsLastLe a b := by
  rw [weekSortLe_eq] at h
  unfold nullsLastLe
  cases ha : a.dateDebut with
  | none =>
    cases hb : b.dateDebut with
    | none => trivial
    | some db =>
      rw [ha, hb] at h
      exact absurd h (by simp)
  | some da =>
    cases hb : b.dateDebut with
    | none => trivial
    | some db =>
      rw [ha, hb] at h
      exact of_decide_eq_true h

theorem pairwise_weekSortLe_of_none (l : List WeekGroup)
    (h : ∀ w ∈ l, w.dateDebut.isNone = true) :
    l.Pairwise (fun a b => weekSortLe a b = true) := by
  induction l with
  | nil => exact List.Pairwise.nil
  | cons a l ih =>
    constructor
    · intro b hb
      rw [weekSortLe_eq]
      have hbn : b.dateDebut = none :=
        Option.isNone_iff_eq_none.mp (h b (List.mem_cons_of_mem a hb))
      cases ha : a.dateDebut with
      | none => rw [hbn]
      | some da => rw [hbn]
    · exact ih (fun w hw => h w (List.mem_cons_of_mem a hw))

theorem sortedWeeks_stable_nulls (l : List WeekGroup) :
    (sortedWeeks l).filter (fun w => w.dateDebut.isNone) =
      l.filter (fun w => w.dateDebut.isNone) := by
  have hpw : (l.filter (fun w => w.dateDebut.isNone)).Pairwise
      (fun a b => weekSortLe a b = true) :=
    pairwise_weekSortLe_of_none _ (fun w hw => (List.mem_filter.mp hw).2)
  have hsub : (l.filter (fun w => w.dateDebut.isNone)).Sublist (sortedWeeks l) :=
    List.sublist_mergeSort weekSortLe_trans weekSortLe_total hpw (List.filter_sublist l)
  have hsub2 : (l.filter (fun w => w.dateDebut.isNone)).Sublist
      ((sortedWeeks l).filter (fun w => w.dateDebut.isNone)) := by
    have hidem : ((l.filter (fun w => w.dateDebut.isNone)).filter
        (fun w => w.dateDebut.isNone)) = l.filter (fun w => w.dateDebut.isNone) := by
      rw [List.filter_filter]
      apply List.filter_congr
      intro x _
      rw [Bool.and_self]
    have := List.Sublist.filter (fun w => w.dateDebut.isNone) hsub
    rw [hidem] at this
    exact this
  have hlen : ((sortedWeeks l).filter (fun w => w.dateDebut.isNone)).length =
      (l.filter (fun w => w.dateDebut.isNone)).length :=
    (List.Perm.filter _ (List.mergeSort_perm l weekSortLe)).length_eq
  exact (List.Sublist.eq_of_length hsub2 hlen.symm).symm

theorem sortedWeeks_example : sortedWeeks c5ExampleWeeks = c5ExampleSorted := by
  have hanti : ∀ a b, a ∈ sortedWeeks c5ExampleWeeks → b ∈ c5ExampleSorted →
      weekSortLe a b = true → weekSortLe b a = true → a = b := by
    intro a b ha hb
    have ha2 : a ∈ c5ExampleWeeks := List.mem_mergeSort.mp ha
    fin_cases ha2 <;> fin_cases hb <;> decide
  have hs1 : (sortedWeeks c5ExampleWeeks).Pairwise (fun a b => weekSortLe a b = true) :=
    List.sorted_mergeSort weekSortLe_trans weekSortLe_total c5ExampleWeeks
  have hs2 : c5ExampleSorted.Pairwise (fun a b => weekSortLe a b = true) := by decide
  have hperm : (sortedWeeks c5ExampleWeeks).Perm c5ExampleSorted :=
    (List.mergeSort_perm c5ExampleWeeks weekSortLe).trans (by decide)
  exact List.Perm.eq_of_sorted hanti hs1 hs2 hperm

/-- Claim C5: for every list of week groups, the sorted list is a permutation
of the input, is ordered with dated weeks ascending by start date and all
null-start-date weeks after them, and the relative order among the
null-start-date weeks is their input order; start dates
[null, 2024-01-08, 2024-01-01] sort to [2024-01-01, 2024-01-08, null]. -/
theorem C5_week_sort_stability (l : List WeekGroup) :
    (sortedWeeks l).Perm l ∧
    (sortedWeeks l).Pairwise nullsLastLe ∧
    (sortedWeeks l).filter (fun w => w.dateDebut.isNone) =
      l.filter (fun w => w.dateDebut.isNone) ∧
    sortedWeeks c5ExampleWeeks = c5ExampleSorted := by
  refine ⟨List.mergeSort_perm l weekSortLe, ?_, sortedWeeks_stable_nulls l,
    sortedWeeks_example⟩
  have hs := List.sorted_mergeSort weekSortLe_trans weekSortLe_total l
  exact hs.imp (fun h => nullsLastLe_of_weekSortLe h)

/-- Claim C9: a cell is flagged over-threshold iff its occupancy count strictly
exceeds 5 — a count of exactly 5 is not flagged, 6 is — and a count of 0
renders as empty text rather than the digit zero. -/
theorem C9_threshold_alert (c : Nat) :
    (overLimit c = true ↔ 5 < c) ∧
    overLimit 5 = false ∧ overLimit 6 = true ∧
    totalCellText 0 = "" ∧ totalCellText 5 = "5" ∧ totalCellText 6 = "6" := by
  refine ⟨?_, by decide, by decide, by decide, by decide, by decide⟩
  unfold overLimit ALERT_THRESHOLD
  exact decide_eq_true_iff

/-- Witness for C9 at the boundary count 6. -/
theorem C9_threshold_alert_witness :
    ((overLimit 6 = true ↔ 5 < 6) ∧
    overLimit 5 = false ∧ overLimit 6 = true ∧
    totalCellText 0 = "" ∧ totalCellText 5 = "5" ∧ totalCellText 6 = "6") :=
  C9_threshold_alert 6

theorem find?_map_of_pred (f : WeekGroup → WeekGroup) (p : WeekGroup → Bool)
    (hf : ∀ x, p (f x) = p x) :
    ∀ l : List WeekGroup, (l.map f).find? p = (l.find? p).map f := by
  intro l
  induction l with
  | nil => rfl
  | cons a l ih =>
    rw [List.map_cons]
    show List.find? p (f a :: l.map f) = _
    cases hpa : p a with
    | true =>
      have hpfa : p (f a) = true := by rw [hf a, hpa]
      rw [List.find?_cons_of_pos _ hpfa, List.find?_cons_of_pos _ hpa]
      rfl
    | false =>
      have hpfa : p (f a) = false := by rw [hf a, hpa]
      rw [List.find?_cons_of_neg _ (by rw [hpfa]; exact Bool.false_ne_true),
        List.find?_cons_of_neg _ (by rw [hpa]; exact Bool.false_ne_true)]
      exact ih

theorem cellCount_addEventToWeek (grid : List WeekGroup) (wid' : String) (wi : WeekInfo)
    (ge : GridEvent) (wid blocName dayCode : String) :
    cellCount (addEventToWeek grid wid' wi ge) wid blocName dayCode =
      cellCount grid wid blocName dayCode +
        (if wid' = wid ∧ cellMark ge blocName dayCode = true then 1 else 0) := by
  unfold addEventToWeek
  by_cases hany : grid.any (fun wg => wg.weekId == wid') = true
  · rw [if_pos hany]
    unfold cellCount
    rw [find?_map_of_pred
      (fun wg => if wg.weekId = wid' then { wg with events := wg.events ++ [ge] } else wg)
      (fun wg => wg.weekId == wid)
      (by
        intro x
        show ((if x.weekId = wid' then { x with events := x.events ++ [ge] } else x).weekId
          == wid) = (x.weekId == wid)
        by_cases hx : x.weekId = wid'
        · rw [if_pos hx]
        · rw [if_neg hx])]
    cases hfind : grid.find? (fun wg => wg.weekId == wid) with
    | none =>
      show (0 : Nat) = 0 + _
      rw [if_neg]
      intro hcontra
      rcases List.any_eq_true.mp hany with ⟨wg, hwg, hbeq⟩
      have : wg.weekId = wid' := by
        rw [← beq_iff_eq]
        exact hbeq
      have hmem : (grid.find? (fun wg => wg.weekId == wid)).isSome = true := by
        apply List.find?_isSome.mpr
        refine ⟨wg, hwg, ?_⟩
        show (wg.weekId == wid) = true
        rw [this, hcontra.1]
        exact beq_self_eq_true wid
      rw [hfind] at hmem
      exact absurd hmem (by simp)
    | some wg =>
      have hwid : wg.weekId = wid := by
        have := List.find?_some hfind
        rw [← beq_iff_eq]
        exact this
      by_cases hw' : wg.weekId = wid'
      · show ((if wg.weekId = wid' then { wg with events := wg.events ++ [ge] } else wg).events.filter
            (fun x => cellMark x blocName dayCode)).length = _
        rw [if_pos hw']
        show ((wg.events ++ [ge]).filter (fun x => cellMark x blocName dayCode)).length = _
        rw [List.filter_append, List.length_append]
        have heq : wid' = wid := by rw [← hw', hwid]
        cases hmark : cellMark ge blocName dayCode with
        | true =>
          rw [if_pos (show wid' = wid ∧ true = true from ⟨heq, rfl⟩)]
          have hfil : [ge].filter (fun x => cellMark x blocName dayCode) = [ge] := by
            simp [List.filter_cons, hmark]
          rw [hfil]
          rfl
        | false =>
          rw [if_neg (fun hc => Bool.false_ne_true hc.2)]
          have hfil : [ge].filter (fun x => cellMark x blocName dayCode) = [] := by
            simp [List.filter_cons, hmark]
          rw [hfil]
          rfl
      · show ((if wg.weekId = wid' then { wg with events := wg.events ++ [ge] } else wg).events.filter
            (fun x => cellMark x blocName dayCode)).length = _
        rw [if_neg hw']
        rw [if_neg (fun hc => hw' (by rw [hwid, hc.1]))]
        rfl
  · rw [if_neg hany]
    unfold cellCount
    rw [List.find?_append]
    have hnone : grid.find? (fun wg => wg.weekId == wid') = none := by
      rw [List.find?_eq_none]
      intro x hx hpx
      exact hany (List.any_eq_true.mpr ⟨x, hx, hpx⟩)
    by_cases heq : wid' = wid
    · have hnone2 : grid.find? (fun wg => wg.weekId == wid) = none := by
        rw [← heq]
        exact hnone
      rw [hnone2]
      have hfs : List.find? (fun wg => wg.weekId == wid)
          [(⟨wid', wi.name, wi.dateDebut, wi.dateFin, [ge]⟩ : WeekGroup)] =
          some ⟨wid', wi.name, wi.dateDebut, wi.dateFin, [ge]⟩ := by
        apply List.find?_cons_of_pos
        show (wid' == wid) = true
        rw [heq]
        exact beq_self_eq_true wid
      rw [hfs]
      show ([ge].filter (fun x => cellMark x blocName dayCode)).length = 0 + _
      cases hmark : cellMark ge blocName dayCode with
      | true =>
        rw [if_pos (show wid' = wid ∧ true = true from ⟨heq, rfl⟩)]
        have hfil : [ge].filter (fun x => cellMark x blocName dayCode) = [ge] := by
          simp [List.filter_cons, hmark]
        rw [hfil]
        rfl
      | false =>
        rw [if_neg (fun hc => Bool.false_ne_true hc.2)]
        have hfil : [ge].filter (fun x => cellMark x blocName dayCode) = [] := by
          simp [List.filter_cons, hmark]
        rw [hfil]
        rfl
    · have hfs : List.find? (fun wg => wg.weekId == wid)
          [(⟨wid', wi.name, wi.dateDebut, wi.dateFin, [ge]⟩ : WeekGroup)] = none := by
        apply List.find?_cons_of_neg
        show ¬ (wid' == wid) = true
        rw [beq_iff_eq]
        exact heq
      rw [hfs, Option.or_none]
      rw [if_neg (fun hc => heq hc.1)]
      rfl

theorem cellCount_weekFold (weeksMap : String → Option WeekInfo) (selWeek : Option String)
    (ge : GridEvent) (wid blocName dayCode : String) :
    ∀ (weekIds : List String) (g : List WeekGroup),
      cellCount
        (weekIds.foldl
          (fun g2 w =>
            if !weekPasses selWeek w then g2
            else
              match weeksMap w with
              | none => g2
              | some wi => addEventToWeek g2 w wi ge)
          g) wid blocName dayCode =
      cellCount g wid blocName dayCode +
        (weekIds.filter (fun w => w == wid && weekPasses selWeek w &&
          (weeksMap w).isSome)).length *
          (if cellMark ge blocName dayCode = true then 1 else 0) := by
  intro weekIds
  induction weekIds with
  | nil => intro g; simp
  | cons w ws ih =>
    intro g
    simp only [List.foldl_cons, List.filter_cons]
    by_cases hpass : weekPasses selWeek w = true
    · cases hwm : weeksMap w with
      | none =>
        have hstep : (if (!weekPasses selWeek w) = true then g
            else
              match (none : Option WeekInfo) with
              | none => g
              | some wi => addEventToWeek g w wi ge) = g := by
          rw [hpass]
          rfl
        rw [hstep, ih g]
        simp
      | some wi =>
        have hstep : (if (!weekPasses selWeek w) = true then g
            else
              match (some wi : Option WeekInfo) with
              | none => g
              | some wi2 => addEventToWeek g w wi2 ge) = addEventToWeek g w wi ge := by
          rw [hpass]
          rfl
        rw [hstep, ih (addEventToWeek g w wi ge), cellCount_addEventToWeek]
        by_cases hww : w = wid
        · have hwb : (w == wid) = true := by rw [beq_iff_eq]; exact hww
          cases hmark : cellMark ge blocName dayCode with
          | true =>
            rw [if_pos (show w = wid ∧ true = true from ⟨hww, rfl⟩)]
            simp [hwb, hpass]
            omega
          | false =>
            rw [if_neg (fun hc => Bool.false_ne_true hc.2)]
            simp [hwb, hpass]
        · have hwb : (w == wid) = false := by rw [beq_eq_false_iff_ne]; exact hww
          rw [if_neg (fun hc => hww hc.1)]
          simp [hwb]
    · have hpassf : weekPasses selWeek w = false := by
        cases h : weekPasses selWeek w with
        | true => exact absurd h hpass
        | false => rfl
      have hstep : (if (!weekPasses selWeek w) = true then g
          else
            match weeksMap w with
            | none => g
            | some wi => addEventToWeek g w wi ge) = g := by
        rw [hpassf]
        rfl
      rw [hstep, ih g]
      simp [hpassf]

theorem cellCount_processEvent (weeksMap : String → Option WeekInfo)
    (blocsMap : String → Option String) (selSite selCanal selWeek : Option String)
    (g : List WeekGroup) (ev : EventRec) (wid blocName dayCode : String) :
    cellCount (processEvent weeksMap blocsMap selSite selCanal selWeek g ev)
        wid blocName dayCode =
      cellCount g wid blocName dayCode +
        eventContrib weeksMap blocsMap selSite selCanal selWeek ev wid blocName dayCode := by
  unfold processEvent eventContrib
  by_cases hsite : passesLinkFilter selSite ev.siteLinks = true
  · by_cases hcanal : passesLinkFilter selCanal ev.canalLinks = true
    · rw [hsite, hcanal]
      rw [if_pos (show (true && true) = true from rfl)]
      cases hw : ev.weekLinks with
      | none => rfl
      | some weekIds =>
        cases hb : ev.blocLinks with
        | none => rfl
        | some blocIds =>
          show cellCount (weekIds.foldl (fun g2 w =>
              if !weekPasses selWeek w then g2
              else
                match weeksMap w with
                | none => g2
                | some wi => addEventToWeek g2 w wi
                    ⟨ev.name, ev.id, daysSetOf ev.jours, blocNamesOf blocsMap blocIds⟩) g)
              wid blocName dayCode = _
          rw [cellCount_weekFold weeksMap selWeek
            ⟨ev.name, ev.id, daysSetOf ev.jours, blocNamesOf blocsMap blocIds⟩
            wid blocName dayCode weekIds g]
          cases hmark : cellMark
              ⟨ev.name, ev.id, daysSetOf ev.jours, blocNamesOf blocsMap blocIds⟩
              blocName dayCode with
          | true => simp [hmark]
          | false => simp [hmark]
    · have hcf : passesLinkFilter selCanal ev.canalLinks = false := by
        cases h : passesLinkFilter selCanal ev.canalLinks with
        | true => exact absurd h hcanal
        | false => rfl
      rw [hsite, hcf]
      rw [if_neg (show ¬ ((true && false) = true) from by simp)]
      rfl
  · have hsf : passesLinkFilter selSite ev.siteLinks = false := by
      cases h : passesLinkFilter selSite ev.siteLinks with
      | true => exact absurd h hsite
      | false => rfl
    rw [hsf]
    rw [if_neg (show ¬ ((false && passesLinkFilter selCanal ev.canalLinks) = true) from by simp)]
    rfl

theorem cellCount_buildFold (weeksMap : String → Option WeekInfo)
    (blocsMap : String → Option String) (selSite selCanal selWeek : Option String)
    (wid blocName dayCode : String) :
    ∀ (events : List EventRec) (g : List WeekGroup),
      cellCount (events.foldl (processEvent weeksMap blocsMap selSite selCanal selWeek) g)
          wid blocName dayCode =
        cellCount g wid blocName dayCode +
          (events.map (fun ev =>
            eventContrib weeksMap blocsMap selSite selCanal selWeek ev wid blocName dayCode)).sum := by
  intro events
  induction events with
  | nil => intro g; rfl
  | cons ev rest ih =>
    intro g
    rw [List.foldl_cons, ih, cellCount_processEvent, List.map_cons, List.sum_cons]
    omega

theorem weekIds_addEventToWeek_any_true (grid : List WeekGroup) (wid' : String) (wi : WeekInfo)
    (ge : GridEvent) (hany : grid.any (fun wg => wg.weekId == wid') = true) :
    (addEventToWeek grid wid' wi ge).map (fun wg => wg.weekId) =
      grid.map (fun wg => wg.weekId) := by
  unfold addEventToWeek
  rw [if_pos hany, List.map_map]
  apply List.map_congr_left
  intro x _
  show (if x.weekId = wid' then { x with events := x.events ++ [ge] } else x).weekId = x.weekId
  by_cases hx : x.weekId = wid'
  · rw [if_pos hx]
  · rw [if_neg hx]

theorem nodup_weekIds_addEventToWeek (grid : List WeekGroup) (wid' : String) (wi : WeekInfo)
    (ge : GridEvent) (hnd : (grid.map (fun wg => wg.weekId)).Nodup) :
    ((addEventToWeek grid wid' wi ge).map (fun wg => wg.weekId)).Nodup := by
  by_cases hany : grid.any (fun wg => wg.weekId == wid') = true
  · rw [weekIds_addEventToWeek_any_true grid wid' wi ge hany]
    exact hnd
  · unfold addEventToWeek
    rw [if_neg hany, List.map_append]
    rw [List.nodup_append]
    refine ⟨hnd, List.nodup_singleton _, ?_⟩
    intro a ha hb
    rw [List.map_singleton, List.mem_singleton] at hb
    rcases List.mem_map.mp ha with ⟨wg, hwg, hwid⟩
    apply hany
    apply List.any_eq_true.mpr
    refine ⟨wg, hwg, ?_⟩
    show (wg.weekId == wid') = true
    rw [hwid, hb]
    exact beq_self_eq_true wid'

theorem nodup_weekIds_weekFold (weeksMap : String → Option WeekInfo) (selWeek : Option String)
    (ge : GridEvent) :
    ∀ (weekIds : List String) (g : List WeekGroup), (g.map (fun wg => wg.weekId)).Nodup →
      ((weekIds.foldl
        (fun g2 w =>
          if !weekPasses selWeek w then g2
          else
            match weeksMap w with
            | none => g2
            | some wi => addEventToWeek g2 w wi ge)
        g).map (fun wg => wg.weekId)).Nodup := by
  intro weekIds
  induction weekIds with
  | nil => intro g h; exact h
  | cons w ws ih =>
    intro g h
    simp only [List.foldl_cons]
    apply ih
    by_cases hpass : weekPasses selWeek w = true
    · cases hwm : weeksMap w with
      | none =>
        have hstep : (if (!weekPasses selWeek w) = true then g
            else
              match (none : Option WeekInfo) with
              | none => g
              | some wi => addEventToWeek g w wi ge) = g := by
          rw [hpass]
          rfl
        rw [hstep]
        exact h
      | some wi =>
        have hstep : (if (!weekPasses selWeek w) = true then g
            else
              match (some wi : Option WeekInfo) with
              | none => g
              | some wi2 => addEventToWeek g w wi2 ge) = addEventToWeek g w wi ge := by
          rw [hpass]
          rfl
        rw [hstep]
        exact nodup_weekIds_addEventToWeek g w wi ge h
    · have hpassf : weekPasses selWeek w = false := by
        cases hp : weekPasses selWeek w with
        | true => exact absurd hp hpass
        | false => rfl
      have hstep : (if (!weekPasses selWeek w) = true then g
          else
            match weeksMap w with
            | none => g
            | some wi => addEventToWeek g w wi ge) = g := by
        rw [hpassf]
        rfl
      rw [hstep]
      exact h

theorem nodup_weekIds_processEvent (weeksMap : String → Option WeekInfo)
    (blocsMap : String → Option String) (selSite selCanal selWeek : Option String)
    (g : List WeekGroup) (ev : EventRec) (hnd : (g.map (fun wg => wg.weekId)).Nodup) :
    ((processEvent weeksMap blocsMap selSite selCanal selWeek g ev).map
      (fun wg => wg.weekId)).Nodup := by
  unfold processEvent
  by_cases hsite : passesLinkFilter selSite ev.siteLinks = true
  · by_cases hcanal : passesLinkFilter selCanal ev.canalLinks = true
    · rw [hsite, hcanal]
      cases hw : ev.weekLinks with
      | none => exact hnd
      | some weekIds =>
        cases hb : ev.blocLinks with
        | none => exact hnd
        | some blocIds =>
          exact nodup_weekIds_weekFold weeksMap selWeek
            ⟨ev.name, ev.id, daysSetOf ev.jours, blocNamesOf blocsMap blocIds⟩ weekIds g hnd
    · have hcf : passesLinkFilter selCanal ev.canalLinks = false := by
        cases h : passesLinkFilter selCanal ev.canalLinks with
        | true => exact absurd h hcanal
        | false => rfl
      rw [hsite, hcf]
      exact hnd
  · have hsf : passesLinkFilter selSite ev.siteLinks = false := by
      cases h : passesLinkFilter selSite ev.siteLinks with
      | true => exact absurd h hsite
      | false => rfl
    rw [hsf]
    exact hnd

theorem nodup_weekIds_buildGridRaw (events : List EventRec)
    (weeksMap : String → Option WeekInfo) (blocsMap : String → Option String)
    (selSite selCanal selWeek : Option String) :
    ((buildGridRaw events weeksMap blocsMap selSite selCanal selWeek).map
      (fun wg => wg.weekId)).Nodup := by
  unfold buildGridRaw
  have hgen : ∀ (evs : List EventRec) (g : List WeekGroup),
      (g.map (fun wg => wg.weekId)).Nodup →
      ((evs.foldl (processEvent weeksMap blocsMap selSite selCanal selWeek) g).map
        (fun wg => wg.weekId)).Nodup := by
    intro evs
    induction evs with
    | nil => intro g h; exact h
    | cons ev rest ih =>
      intro g h
      rw [List.foldl_cons]
      exact ih _ (nodup_weekIds_processEvent weeksMap blocsMap selSite selCanal selWeek g ev h)
  exact hgen events [] List.nodup_nil

theorem cellCount_sortedWeeks (g : List WeekGroup)
    (hnd : (g.map (fun wg => wg.weekId)).Nodup) (wid blocName dayCode : String) :
    cellCount (sortedWeeks g) wid blocName dayCode = cellCount g wid blocName dayCode := by
  unfold cellCount
  cases hf : g.find? (fun wg => wg.weekId == wid) with
  | none =>
    have hnall : ∀ x ∈ g, ¬ (fun wg => wg.weekId == wid) x = true := List.find?_eq_none.mp hf
    have hf2 : (sortedWeeks g).find? (fun wg => wg.weekId == wid) = none := by
      rw [List.find?_eq_none]
      intro x hx
      exact hnall x (List.mem_mergeSort.mp hx)
    rw [hf2]
  | some wg =>
    have hmem : wg ∈ g := List.mem_of_find?_eq_some hf
    have hp := List.find?_some hf
    have hsome : ((sortedWeeks g).find? (fun wg => wg.weekId == wid)).isSome = true := by
      apply List.find?_isSome.mpr
      exact ⟨wg, List.mem_mergeSort.mpr hmem, hp⟩
    cases hf2 : (sortedWeeks g).find? (fun wg => wg.weekId == wid) with
    | none =>
      rw [hf2] at hsome
      exact absurd hsome (by simp)
    | some wg2 =>
      have hmem2 : wg2 ∈ g := List.mem_mergeSort.mp (List.mem_of_find?_eq_some hf2)
      have hp2 := List.find?_some hf2
      have hpe : wg.weekId = wid := by
        have hb : (wg.weekId == wid) = true := hp
        rw [beq_iff_eq] at hb
        exact hb
      have hpe2 : wg2.weekId = wid := by
        have hb : (wg2.weekId == wid) = true := hp2
        rw [beq_iff_eq] at hb
        exact hb
      have heq : wg2 = wg := by
        apply List.inj_on_of_nodup_map hnd hmem2 hmem
        show wg2.weekId = wg.weekId
        rw [hpe, hpe2]
      rw [heq]

/-- The contribution of one event slot to a cell: inserting an event at a fixed
position of the event list changes that cell's count by exactly that event's
`eventContrib`, and no other event's contribution moves. -/
theorem cellCount_insert (weeksMap : String → Option WeekInfo)
    (blocsMap : String → Option String) (selSite selCanal selWeek : Option String)
    (pre post : List EventRec) (x : EventRec) (wid blocName dayCode : String) :
    cellCount (buildGrid (pre ++ x :: post) weeksMap blocsMap selSite selCanal selWeek)
        wid blocName dayCode =
      cellCount (buildGrid (pre ++ post) weeksMap blocsMap selSite selCanal selWeek)
          wid blocName dayCode +
        eventContrib weeksMap blocsMap selSite selCanal selWeek x wid blocName dayCode := by
  unfold buildGrid
  rw [cellCount_sortedWeeks _ (nodup_weekIds_buildGridRaw _ weeksMap blocsMap _ _ _),
    cellCount_sortedWeeks _ (nodup_weekIds_buildGridRaw _ weeksMap blocsMap _ _ _)]
  unfold buildGridRaw
  rw [cellCount_buildFold weeksMap blocsMap selSite selCanal selWeek wid blocName dayCode
    (pre ++ x :: post) [],
    cellCount_buildFold weeksMap blocsMap selSite selCanal selWeek wid blocName dayCode
    (pre ++ post) []]
  rw [List.map_append, List.map_append, List.map_cons, List.sum_append, List.sum_append,
    List.sum_cons]
  omega

theorem mem_addToSet (acc : List String) (x a : String) :
    a ∈ addToSet acc x ↔ a ∈ acc ∨ a = x := by
  unfold addToSet
  by_cases hx : x ∈ acc
  · rw [if_pos hx]
    constructor
    · intro h; exact Or.inl h
    · intro h
      rcases h with h | h
      · exact h
      · rw [h]; exact hx
  · rw [if_neg hx]
    rw [List.mem_append, List.mem_singleton]

theorem mem_daysSetOf_foldl (js : List String) :
    ∀ (acc : List String) (a : String),
      a ∈ js.foldl addToSet acc ↔ a ∈ acc ∨ a ∈ js := by
  induction js with
  | nil =>
    intro acc a
    simp
  | cons j rest ih =>
    intro acc a
    rw [List.foldl_cons, ih (addToSet acc j) a, mem_addToSet, List.mem_cons]
    constructor
    · intro h
      rcases h with (h | h) | h
      · exact Or.inl h
      · exact Or.inr (Or.inl h)
      · exact Or.inr (Or.inr h)
    · intro h
      rcases h with h | h | h
      · exact Or.inl (Or.inl h)
      · exact Or.inl (Or.inr h)
      · exact Or.inr h

theorem mem_daysSetOf (js : List String) (a : String) :
    a ∈ daysSetOf (some js) ↔ a ∈ js := by
  unfold daysSetOf
  rw [mem_daysSetOf_foldl js [] a]
  simp

theorem mem_blocNamesOf_foldl (blocsMap : String → Option String) (bs : List String) :
    ∀ (acc : List String) (a : String),
      a ∈ bs.foldl
        (fun acc bid =>
          match blocsMap bid with
          | some bn => addToSet acc bn
          | none => acc) acc ↔
      a ∈ acc ∨ ∃ x ∈ bs, blocsMap x = some a := by
  induction bs with
  | nil =>
    intro acc a
    simp
  | cons b rest ih =>
    intro acc a
    rw [List.foldl_cons]
    cases hb : blocsMap b with
    | none =>
      rw [ih acc a]
      constructor
      · intro h
        rcases h with h | ⟨x, hx, hbx⟩
        · exact Or.inl h
        · exact Or.inr ⟨x, List.mem_cons_of_mem b hx, hbx⟩
      · intro h
        rcases h with h | ⟨x, hx, hbx⟩
        · exact Or.inl h
        · rcases List.mem_cons.mp hx with hxb | hxr
          · rw [hxb] at hbx
            rw [hbx] at hb
            exact absurd hb (by simp)
          · exact Or.inr ⟨x, hxr, hbx⟩
    | some bn =>
      rw [ih (addToSet acc bn) a, mem_addToSet]
      constructor
      · intro h
        rcases h with (h | h) | ⟨x, hx, hbx⟩
        · exact Or.inl h
        · exact Or.inr ⟨b, List.mem_cons_self b rest, by rw [hb, h]⟩
        · exact Or.inr ⟨x, List.mem_cons_of_mem b hx, hbx⟩
      · intro h
        rcases h with h | ⟨x, hx, hbx⟩
        · exact Or.inl (Or.inl h)
        · rcases List.mem_cons.mp hx with hxb | hxr
          · rw [hxb] at hbx
            rw [hbx] at hb
            exact Or.inl (Or.inr (Option.some_inj.mp hb))
          · exact Or.inr ⟨x, hxr, hbx⟩

theorem mem_blocNamesOf (blocsMap : String → Option String) (bs : List String) (a : String) :
    a ∈ blocNamesOf blocsMap bs ↔ ∃ x ∈ bs, blocsMap x = some a := by
  unfold blocNamesOf
  rw [mem_blocNamesOf_foldl blocsMap bs [] a]
  simp

theorem contains_mem_iff (l : List String) (a : String) : l.contains a = true ↔ a ∈ l := by
  show List.elem a l = true ↔ a ∈ l
  exact List.elem_iff

theorem contains_eq_of_mem_iff {l1 l2 : List String} {a : String}
    (h : a ∈ l1 ↔ a ∈ l2) : l1.contains a = l2.contains a := by
  cases h1 : l1.contains a with
  | true =>
    have hm1 : a ∈ l1 := (contains_mem_iff l1 a).mp h1
    have hm2 : a ∈ l2 := h.mp hm1
    rw [(contains_mem_iff l2 a).mpr hm2]
  | false =>
    cases h2 : l2.contains a with
    | true =>
      have hm2 : a ∈ l2 := (contains_mem_iff l2 a).mp h2
      have hm1 : a ∈ l1 := h.mpr hm2
      rw [(contains_mem_iff l1 a).mpr hm1] at h1
      exact h1.symm
    | false => rfl

/-- The `eventContrib` value with no site/canal/week filter active, in terms of the
bloc/day membership tests. -/
theorem eventContrib_none_filters (weeksMap : String → Option WeekInfo)
    (blocsMap : String → Option String) (ev : EventRec) (ws bs : List String)
    (wid B D : String) (hw : ev.weekLinks = some ws) (hb : ev.blocLinks = some bs) :
    eventContrib weeksMap blocsMap none none none ev wid B D =
      if ((blocNamesOf blocsMap bs).contains B && (daysSetOf ev.jours).contains D) = true then
        (ws.filter (fun w => w == wid && (weeksMap w).isSome)).length
      else 0 := by
  unfold eventContrib
  rw [hw, hb]
  show (if (true && true) = true then
      if cellMark ⟨ev.name, ev.id, daysSetOf ev.jours, blocNamesOf blocsMap bs⟩ B D = true then
        (ws.filter (fun w => w == wid && weekPasses none w && (weeksMap w).isSome)).length
      else 0
    else 0) = _
  rw [if_pos (show (true && true) = true from rfl)]
  have hpred : (fun w => w == wid && weekPasses none w && (weeksMap w).isSome)
      = (fun w => w == wid && (weeksMap w).isSome) := by
    funext w
    rw [show weekPasses none w = true from rfl, Bool.and_true]
  rw [hpred]
  rfl

theorem filter_beq_isSome_eq (weeksMap : String → Option WeekInfo) (ws : List String)
    (W : String) (hWres : (weeksMap W).isSome = true) :
    ws.filter (fun w => w == W && (weeksMap w).isSome) = ws.filter (fun w => w == W) := by
  apply List.filter_congr
  intro w _
  by_cases hww : w = W
  · subst hww
    simp [hWres]
  · have hwb : (w == W) = false := by rw [beq_eq_false_iff_ne]; exact hww
    simp [hwb]

theorem filter_removed_week (weeksMap : String → Option WeekInfo) (ws : List String)
    (W : String) :
    (ws.filter (fun w => !(w == W))).filter (fun w => w == W && (weeksMap w).isSome) = [] := by
  rw [List.filter_filter]
  rw [List.filter_eq_nil_iff]
  intro a _
  by_cases ha : a = W
  · subst ha
    simp
  · have hab : (a == W) = false := by rw [beq_eq_false_iff_ne]; exact ha
    simp [hab]

theorem filter_removed_week_other (weeksMap : String → Option WeekInfo) (ws : List String)
    (W W2 : String) (hne : W2 ≠ W) :
    (ws.filter (fun w => !(w == W))).filter (fun w => w == W2 && (weeksMap w).isSome) =
      ws.filter (fun w => w == W2 && (weeksMap w).isSome) := by
  rw [List.filter_filter]
  apply List.filter_congr
  intro a _
  by_cases ha : a = W2
  · subst ha
    have hab : (a == W) = false := by rw [beq_eq_false_iff_ne]; exact hne
    simp [hab]
  · have hab : (a == W2) = false := by rw [beq_eq_false_iff_ne]; exact ha
    simp [hab]

/-- Claim C2 as stated is false: removing one membership can change more than
one cell.  Removing the week link w1 from an event active on days D and L
removes its contribution to cell (w1, am, D) — but also to the distinct cell
(w1, am, L), contradicting "removes E's contribution to that cell and to no
other cell". -/
theorem C2_join_correctness_counterexample :
    cellCount (buildGrid [c2Event] (weeksMapOf c2Weeks) (blocsMapOf c2Blocs) none none none)
        "w1" "am" "D" = 1 ∧
    cellCount (buildGrid [c2EventNoWeek] (weeksMapOf c2Weeks) (blocsMapOf c2Blocs)
        none none none) "w1" "am" "D" = 0 ∧
    cellCount (buildGrid [c2Event] (weeksMapOf c2Weeks) (blocsMapOf c2Blocs) none none none)
        "w1" "am" "L" = 1 ∧
    cellCount (buildGrid [c2EventNoWeek] (weeksMapOf c2Weeks) (blocsMapOf c2Blocs)
        none none none) "w1" "am" "L" = 0 ∧
    ("L" : String) ≠ "D" := by
  have h1 : buildGrid [c2Event] (weeksMapOf c2Weeks) (blocsMapOf c2Blocs) none none none =
      [⟨"w1", "W1", none, none, [⟨"E1", "e1", ["D", "L"], ["am"]⟩]⟩] := by
    have hraw : buildGridRaw [c2Event] (weeksMapOf c2Weeks) (blocsMapOf c2Blocs)
        none none none =
        [⟨"w1", "W1", none, none, [⟨"E1", "e1", ["D", "L"], ["am"]⟩]⟩] := by decide
    unfold buildGrid
    rw [hraw]
    exact List.mergeSort_singleton _
  have h2 : buildGrid [c2EventNoWeek] (weeksMapOf c2Weeks) (blocsMapOf c2Blocs)
      none none none = [] := by
    have hraw : buildGridRaw [c2EventNoWeek] (weeksMapOf c2Weeks) (blocsMapOf c2Blocs)
        none none none = [] := by decide
    unfold buildGrid
    rw [hraw]
    exact List.mergeSort_nil
  rw [h1, h2]
  exact ⟨by decide, by decide, by decide, by decide, by decide⟩

/-- Claim C2 (amended): in Variant A with no filters active, for every event E
linked to week W (resolvable) and to a bloc whose name B is in its resolved
bloc set, with active day D, the occupancy count of cell (W,B,D) counts E
(once per occurrence of W among its week links, at least once); removing any
one of the three memberships (the week link, the bloc membership, or the
active day) removes E's contribution to that cell, and leaves unchanged every
cell whose week / bloc / day (respectively) differs from the removed one.
Cells that share the removed component may also change, which is what the
counterexample exhibits against the original "and to no other cell". -/
theorem C2_join_correctness_amended (weeksMap : String → Option WeekInfo)
    (blocsMap : String → Option String) (pre post : List EventRec) (ev : EventRec)
    (ws bs js : List String) (W B D : String)
    (hw : ev.weekLinks = some ws) (hb : ev.blocLinks = some bs) (hj : ev.jours = some js)
    (hWmem : W ∈ ws) (hWres : (weeksMap W).isSome = true)
    (hBmem : B ∈ blocNamesOf blocsMap bs) (hDmem : D ∈ js) :
    (cellCount (buildGrid (pre ++ ev :: post) weeksMap blocsMap none none none) W B D =
       cellCount (buildGrid (pre ++ post) weeksMap blocsMap none none none) W B D +
         (ws.filter (fun w => w == W)).length ∧
     0 < (ws.filter (fun w => w == W)).length) ∧
    (cellCount (buildGrid
         (pre ++ { ev with weekLinks := some (ws.filter (fun w => !(w == W))) } :: post)
         weeksMap blocsMap none none none) W B D =
       cellCount (buildGrid (pre ++ post) weeksMap blocsMap none none none) W B D ∧
     ∀ W2 B2 D2, W2 ≠ W →
       cellCount (buildGrid
           (pre ++ { ev with weekLinks := some (ws.filter (fun w => !(w == W))) } :: post)
           weeksMap blocsMap none none none) W2 B2 D2 =
         cellCount (buildGrid (pre ++ ev :: post) weeksMap blocsMap none none none) W2 B2 D2) ∧
    (cellCount (buildGrid
         (pre ++ { ev with blocLinks := some (bs.filter (fun x => !(blocsMap x == some B))) }
           :: post)
         weeksMap blocsMap none none none) W B D =
       cellCount (buildGrid (pre ++ post) weeksMap blocsMap none none none) W B D ∧
     ∀ W2 B2 D2, B2 ≠ B →
       cellCount (buildGrid
           (pre ++ { ev with blocLinks := some (bs.filter (fun x => !(blocsMap x == some B))) }
             :: post)
           weeksMap blocsMap none none none) W2 B2 D2 =
         cellCount (buildGrid (pre ++ ev :: post) weeksMap blocsMap none none none) W2 B2 D2) ∧
    (cellCount (buildGrid
         (pre ++ { ev with jours := some (js.filter (fun j => !(j == D))) } :: post)
         weeksMap blocsMap none none none) W B D =
       cellCount (buildGrid (pre ++ post) weeksMap blocsMap none none none) W B D ∧
     ∀ W2 B2 D2, D2 ≠ D →
       cellCount (buildGrid
           (pre ++ { ev with jours := some (js.filter (fun j => !(j == D))) } :: post)
           weeksMap blocsMap none none none) W2 B2 D2 =
         cellCount (buildGrid (pre ++ ev :: post) weeksMap blocsMap none none none) W2 B2 D2) := by
  have hcB : (blocNamesOf blocsMap bs).contains B = true :=
    (contains_mem_iff _ _).mpr hBmem
  have hcD : (daysSetOf ev.jours).contains D = true := by
    rw [hj]
    exact (contains_mem_iff _ _).mpr ((mem_daysSetOf js D).mpr hDmem)
  refine ⟨⟨?_, ?_⟩, ⟨?_, ?_⟩, ⟨?_, ?_⟩, ⟨?_, ?_⟩⟩
  · rw [cellCount_insert, eventContrib_none_filters weeksMap blocsMap ev ws bs W B D hw hb]
    rw [if_pos (by rw [hcB, hcD]; rfl)]
    rw [filter_beq_isSome_eq weeksMap ws W hWres]
  · exact List.length_pos_of_mem (List.mem_filter.mpr ⟨hWmem, beq_self_eq_true W⟩)
  · rw [cellCount_insert,
      eventContrib_none_filters weeksMap blocsMap
        { ev with weekLinks := some (ws.filter (fun w => !(w == W))) }
        (ws.filter (fun w => !(w == W))) bs W B D rfl hb]
    rw [filter_removed_week weeksMap ws W]
    simp
  · intro W2 B2 D2 hne
    rw [cellCount_insert, cellCount_insert,
      eventContrib_none_filters weeksMap blocsMap
        { ev with weekLinks := some (ws.filter (fun w => !(w == W))) }
        (ws.filter (fun w => !(w == W))) bs W2 B2 D2 rfl hb,
      eventContrib_none_filters weeksMap blocsMap ev ws bs W2 B2 D2 hw hb,
      filter_removed_week_other weeksMap ws W W2 hne]
  · rw [cellCount_insert,
      eventContrib_none_filters weeksMap blocsMap
        { ev with blocLinks := some (bs.filter (fun x => !(blocsMap x == some B))) }
        ws (bs.filter (fun x => !(blocsMap x == some B))) W B D hw rfl]
    have hnotB : (blocNamesOf blocsMap
        (bs.filter (fun x => !(blocsMap x == some B)))).contains B = false := by
      cases hc : (blocNamesOf blocsMap
          (bs.filter (fun x => !(blocsMap x == some B)))).contains B with
      | false => rfl
      | true =>
        have hmem := (contains_mem_iff _ _).mp hc
        rcases (mem_blocNamesOf _ _ _).mp hmem with ⟨x, hx, hbx⟩
        rcases List.mem_filter.mp hx with ⟨_, hxf⟩
        rw [hbx] at hxf
        simp at hxf
    rw [if_neg (by rw [hnotB]; simp)]
    rfl
  · intro W2 B2 D2 hne
    rw [cellCount_insert, cellCount_insert,
      eventContrib_none_filters weeksMap blocsMap
        { ev with blocLinks := some (bs.filter (fun x => !(blocsMap x == some B))) }
        ws (bs.filter (fun x => !(blocsMap x == some B))) W2 B2 D2 hw rfl,
      eventContrib_none_filters weeksMap blocsMap ev ws bs W2 B2 D2 hw hb]
    have hcont : (blocNamesOf blocsMap
        (bs.filter (fun x => !(blocsMap x == some B)))).contains B2 =
        (blocNamesOf blocsMap bs).contains B2 := by
      apply contains_eq_of_mem_iff
      rw [mem_blocNamesOf, mem_blocNamesOf]
      constructor
      · rintro ⟨x, hx, hbx⟩
        exact ⟨x, (List.mem_filter.mp hx).1, hbx⟩
      · rintro ⟨x, hx, hbx⟩
        refine ⟨x, List.mem_filter.mpr ⟨hx, ?_⟩, hbx⟩
        rw [hbx]
        have hbe : ((some B2 : Option String) == some B) = false := by
          rw [beq_eq_false_iff_ne]
          intro hcontra
          exact hne (Option.some_inj.mp hcontra)
        rw [hbe]
        rfl
    rw [hcont]
  · rw [cellCount_insert,
      eventContrib_none_filters weeksMap blocsMap
        { ev with jours := some (js.filter (fun j => !(j == D))) }
        ws bs W B D hw hb]
    have hnotD : (daysSetOf (some (js.filter (fun j => !(j == D))))).contains D = false := by
      cases hc : (daysSetOf (some (js.filter (fun j => !(j == D))))).contains D with
      | false => rfl
      | true =>
        have hmem := (contains_mem_iff _ _).mp hc
        rcases List.mem_filter.mp ((mem_daysSetOf _ D).mp hmem) with ⟨_, hxf⟩
        simp at hxf
    show cellCount _ W B D +
        (if ((blocNamesOf blocsMap bs).contains B &&
          (daysSetOf (some (js.filter (fun j => !(j == D))))).contains D) = true
        then (ws.filter (fun w => w == W && (weeksMap w).isSome)).length else 0) =
      cellCount _ W B D
    rw [if_neg (by rw [hnotD]; simp)]
    rfl
  · intro W2 B2 D2 hne
    rw [cellCount_insert, cellCount_insert,
      eventContrib_none_filters weeksMap blocsMap
        { ev with jours := some (js.filter (fun j => !(j == D))) }
        ws bs W2 B2 D2 hw hb,
      eventContrib_none_filters weeksMap blocsMap ev ws bs W2 B2 D2 hw hb]
    have hcont : (daysSetOf (some (js.filter (fun j => !(j == D))))).contains D2 =
        (daysSetOf ev.jours).contains D2 := by
      rw [hj]
      apply contains_eq_of_mem_iff
      rw [mem_daysSetOf, mem_daysSetOf]
      constructor
      · intro h
        exact (List.mem_filter.mp h).1
      · intro h
        refine List.mem_filter.mpr ⟨h, ?_⟩
        have hbe : (D2 == D) = false := by
          rw [beq_eq_false_iff_ne]
          exact hne
        rw [hbe]
        rfl
    show cellCount _ W2 B2 D2 +
        (if ((blocNamesOf blocsMap bs).contains B2 &&
          (daysSetOf (some (js.filter (fun j => !(j == D))))).contains D2) = true
        then (ws.filter (fun w => w == W2 && (weeksMap w).isSome)).length else 0) =
      cellCount _ W2 B2 D2 +
        (if ((blocNamesOf blocsMap bs).contains B2 &&
          (daysSetOf ev.jours).contains D2) = true
        then (ws.filter (fun w => w == W2 && (weeksMap w).isSome)).length else 0)
    rw [hcont]

/-- Witness for C2 (amended) at a concrete configuration: one event linked to
week w1 and bloc "am", active on day D. -/
theorem C2_join_correctness_amended_witness :
    ("w1" ∈ (["w1"] : List String)) ∧
    ((weeksMapOf c2Weeks "w1").isSome = true) ∧
    ("am" ∈ blocNamesOf (blocsMapOf c2Blocs) ["b1"]) ∧
    ("D" ∈ (["D", "L"] : List String)) ∧
    (cellCount (buildGrid ([] ++ c2Event :: []) (weeksMapOf c2Weeks) (blocsMapOf c2Blocs)
        none none none) "w1" "am" "D" =
      cellCount (buildGrid ([] ++ ([] : List EventRec)) (weeksMapOf c2Weeks)
        (blocsMapOf c2Blocs) none none none) "w1" "am" "D" +
        ((["w1"] : List String).filter (fun w => w == "w1")).length ∧
     0 < ((["w1"] : List String).filter (fun w => w == "w1")).length) := by
  refine ⟨by decide, by decide, by decide, by decide, ?_⟩
  exact (C2_join_correctness_amended (weeksMapOf c2Weeks) (blocsMapOf c2Blocs) [] [] c2Event
    ["w1"] ["b1"] ["D", "L"] "w1" "am" "D" rfl rfl rfl (by decide) (by decide) (by decide)
    (by decide)).1

theorem gridInv_addEventToWeek (weeksMap : String → Option WeekInfo) (R : GridEvent → Prop)
    (g : List WeekGroup) (wid : String) (wi : WeekInfo) (ge : GridEvent)
    (hg : GridInv weeksMap R g) (hwid : (weeksMap wid).isSome = true) (hge : R ge) :
    GridInv weeksMap R (addEventToWeek g wid wi ge) := by
  unfold addEventToWeek
  by_cases hany : g.any (fun wg => wg.weekId == wid) = true
  · rw [if_pos hany]
    intro wg2 hwg2
    rcases List.mem_map.mp hwg2 with ⟨wg, hwg, hupd⟩
    rcases hg wg hwg with ⟨hsome, hrows⟩
    by_cases hx : wg.weekId = wid
    · rw [if_pos hx] at hupd
      rw [← hupd]
      refine ⟨hsome, ?_⟩
      intro ge2 hge2
      rcases List.mem_append.mp hge2 with hold | hnew
      · exact hrows ge2 hold
      · rw [List.mem_singleton] at hnew
        rw [hnew]
        exact hge
    · rw [if_neg hx] at hupd
      rw [← hupd]
      exact ⟨hsome, hrows⟩
  · rw [if_neg hany]
    intro wg2 hwg2
    rcases List.mem_append.mp hwg2 with hold | hnew
    · exact hg wg2 hold
    · rw [List.mem_singleton] at hnew
      rw [hnew]
      refine ⟨hwid, ?_⟩
      intro ge2 hge2
      rw [List.mem_singleton] at hge2
      rw [hge2]
      exact hge

theorem gridInv_weekFold (weeksMap : String → Option WeekInfo) (R : GridEvent → Prop)
    (selWeek : Option String) (ge : GridEvent) (hge : R ge) :
    ∀ (weekIds : List String) (g : List WeekGroup), GridInv weeksMap R g →
      GridInv weeksMap R
        (weekIds.foldl
          (fun g2 w =>
            if !weekPasses selWeek w then g2
            else
              match weeksMap w with
              | none => g2
              | some wi => addEventToWeek g2 w wi ge)
          g) := by
  intro weekIds
  induction weekIds with
  | nil => intro g h; exact h
  | cons w ws ih =>
    intro g h
    simp only [List.foldl_cons]
    apply ih
    by_cases hpass : weekPasses selWeek w = true
    · cases hwm : weeksMap w with
      | none =>
        have hstep : (if (!weekPasses selWeek w) = true then g
            else
              match (none : Option WeekInfo) with
              | none => g
              | some wi => addEventToWeek g w wi ge) = g := by
          rw [hpass]
          rfl
        rw [hstep]
        exact h
      | some wi =>
        have hstep : (if (!weekPasses selWeek w) = true then g
            else
              match (some wi : Option WeekInfo) with
              | none => g
              | some wi2 => addEventToWeek g w wi2 ge) = addEventToWeek g w wi ge := by
          rw [hpass]
          rfl
        rw [hstep]
        exact gridInv_addEventToWeek weeksMap R g w wi ge h (by rw [hwm]; rfl) hge
    · have hpassf : weekPasses selWeek w = false := by
        cases hp : weekPasses selWeek w with
        | true => exact absurd hp hpass
        | false => rfl
      have hstep : (if (!weekPasses selWeek w) = true then g
          else
            match weeksMap w with
            | none => g
            | some wi => addEventToWeek g w wi ge) = g := by
        rw [hpassf]
        rfl
      rw [hstep]
      exact h

theorem gridInv_processEvent (weeksMap : String → Option WeekInfo)
    (blocsMap : String → Option String) (R : GridEvent → Prop)
    (selSite selCanal selWeek : Option String) (g : List WeekGroup) (ev : EventRec)
    (hg : GridInv weeksMap R g)
    (hR : ∀ weekIds blocIds, ev.weekLinks = some weekIds → ev.blocLinks = some blocIds →
      R ⟨ev.name, ev.id, daysSetOf ev.jours, blocNamesOf blocsMap blocIds⟩) :
    GridInv weeksMap R (processEvent weeksMap blocsMap selSite selCanal selWeek g ev) := by
  unfold processEvent
  by_cases hsite : passesLinkFilter selSite ev.siteLinks = true
  · by_cases hcanal : passesLinkFilter selCanal ev.canalLinks = true
    · rw [hsite, hcanal]
      cases hw : ev.weekLinks with
      | none => exact hg
      | some weekIds =>
        cases hbl : ev.blocLinks with
        | none => exact hg
        | some blocIds =>
          exact gridInv_weekFold weeksMap R selWeek
            ⟨ev.name, ev.id, daysSetOf ev.jours, blocNamesOf blocsMap blocIds⟩
            (hR weekIds blocIds hw hbl) weekIds g hg
    · have hcf : passesLinkFilter selCanal ev.canalLinks = false := by
        cases h : passesLinkFilter selCanal ev.canalLinks with
        | true => exact absurd h hcanal
        | false => rfl
      rw [hsite, hcf]
      exact hg
  · have hsf : passesLinkFilter selSite ev.siteLinks = false := by
      cases h : passesLinkFilter selSite ev.siteLinks with
      | true => exact absurd h hsite
      | false => rfl
    rw [hsf]
    exact hg

/-- Claim C6 (amended): every event row rendered in the Variant A grid belongs
to a week that resolves in the weeks map, and comes from an event whose
week-link and bloc-link cells are both non-null (events with a null cell are
excluded entirely).  The row's resolved bloc-name set can still be empty when
none of the event's bloc links resolve, which the counterexample exhibits
against the original "has a non-empty resolved bloc set". -/
theorem C6_rendered_rows_amended (events : List EventRec)
    (weeksMap : String → Option WeekInfo) (blocsMap : String → Option String)
    (selSite selCanal selWeek : Option String) :
    ∀ wg ∈ buildGrid events weeksMap blocsMap selSite selCanal selWeek,
      (weeksMap wg.weekId).isSome = true ∧
      ∀ ge ∈ wg.events, ∃ ev, ev ∈ events ∧ ge.eventId = ev.id ∧
        ev.weekLinks ≠ none ∧ ev.blocLinks ≠ none := by
  have hgen : ∀ (evs : List EventRec), (∀ e ∈ evs, e ∈ events) →
      ∀ (g : List WeekGroup),
      GridInv weeksMap
        (fun ge => ∃ ev, ev ∈ events ∧ ge.eventId = ev.id ∧
          ev.weekLinks ≠ none ∧ ev.blocLinks ≠ none) g →
      GridInv weeksMap
        (fun ge => ∃ ev, ev ∈ events ∧ ge.eventId = ev.id ∧
          ev.weekLinks ≠ none ∧ ev.blocLinks ≠ none)
        (evs.foldl (processEvent weeksMap blocsMap selSite selCanal selWeek) g) := by
    intro evs
    induction evs with
    | nil => intro _ g h; exact h
    | cons ev rest ih =>
      intro hsub g h
      rw [List.foldl_cons]
      apply ih (fun e he => hsub e (List.mem_cons_of_mem ev he))
      apply gridInv_processEvent weeksMap blocsMap _ selSite selCanal selWeek g ev h
      intro weekIds blocIds hwl hbl
      exact ⟨ev, hsub ev (List.mem_cons_self ev rest), rfl,
        by rw [hwl]; simp, by rw [hbl]; simp⟩
  have hinv := hgen events (fun e he => he) [] (by intro wg hwg; exact absurd hwg (by simp))
  intro wg hwg
  have hmem : wg ∈ buildGridRaw events weeksMap blocsMap selSite selCanal selWeek := by
    unfold buildGrid sortedWeeks at hwg
    exact List.mem_mergeSort.mp hwg
  exact hinv wg hmem

/-- Claim C6 as stated is false on Variant A: an event whose only bloc link is
unresolvable still renders a row (under its resolvable week) whose resolved
bloc-name set is empty, contradicting "has a non-empty resolved bloc set". -/
theorem C6_rendered_rows_counterexample :
    buildGrid [c6Event] (weeksMapOf c6Weeks) (blocsMapOf []) none none none =
      [⟨"w1", "W1", none, none, [⟨"E1", "e1", ["D"], []⟩]⟩] ∧
    (⟨"E1", "e1", ["D"], []⟩ : GridEvent).blocNames = [] := by
  constructor
  · have hraw : buildGridRaw [c6Event] (weeksMapOf c6Weeks) (blocsMapOf []) none none none =
        [⟨"w1", "W1", none, none, [⟨"E1", "e1", ["D"], []⟩]⟩] := by decide
    unfold buildGrid
    rw [hraw]
    exact List.mergeSort_singleton _
  · rfl

/-- Witness for C6 (amended) at the counterexample configuration. -/
theorem C6_rendered_rows_amended_witness :
    (weeksMapOf c6Weeks
      (⟨"w1", "W1", none, none, [⟨"E1", "e1", ["D"], []⟩]⟩ : WeekGroup).weekId).isSome = true ∧
    ∀ ge ∈ (⟨"w1", "W1", none, none, [⟨"E1", "e1", ["D"], []⟩]⟩ : WeekGroup).events,
      ∃ ev, ev ∈ [c6Event] ∧ ge.eventId = ev.id ∧
        ev.weekLinks ≠ none ∧ ev.blocLinks ≠ none := by
  have hg : buildGrid [c6Event] (weeksMapOf c6Weeks) (blocsMapOf []) none none none =
      [⟨"w1", "W1", none, none, [⟨"E1", "e1", ["D"], []⟩]⟩] := by
    have hraw : buildGridRaw [c6Event] (weeksMapOf c6Weeks) (blocsMapOf []) none none none =
        [⟨"w1", "W1", none, none, [⟨"E1", "e1", ["D"], []⟩]⟩] := by decide
    unfold buildGrid
    rw [hraw]
    exact List.mergeSort_singleton _
  exact C6_rendered_rows_amended [c6Event] (weeksMapOf c6Weeks) (blocsMapOf [])
    none none none ⟨"w1", "W1", none, none, [⟨"E1", "e1", ["D"], []⟩]⟩
    (by rw [hg]; exact List.mem_cons_self _ _)
